import Mathlib

/-!
Verification of the migration engine of `ansible-automation-workbench`.

This file gives a shallow embedding, in Lean 4, of the parts of the Go
source that the verified properties are about:

* the JSON-ish `Value`/`Resource` model used by `models.Resource`
  (`map[string]interface{}` decoded from JSON);
* the version comparison helpers of `internal/platform` (`CompareVersions`,
  `VersionAtLeast`, `parseVersionParts`);
* the registry path rewriting (`rewritePaths`), with an explicit store to
  model Go map aliasing;
* the `Job` model of `internal/models/job.go`;
* the pagination loop `Client.GetAll`;
* the export filter `fetchFiltered`;
* the preflight classification `preflightCheck`;
* the importer `importAll` with its cancellation checks, modelled as a
  state-passing function that records every log line and every POST.

Remote servers are modelled as oracles (pure functions supplied as
parameters); Go map iteration, whose order is unspecified, is modelled by
association lists iterated in list order.
-/

/-- JSON-like dynamic value, the model of Go `interface{}` holding decoded
JSON (`encoding/json` produces nil, bool, float64, string, []interface{},
map[string]interface{}). -/
inductive Value where
  | vnull : Value
  | vbool : Bool → Value
  | vnum : Int → Value
  | vstr : String → Value
  | varr : List Value → Value
  | vobj : List (String × Value) → Value
deriving Repr

/-- A `models.Resource`: a Go `map[string]interface{}`, modelled as an
association list (first binding wins, as the most recent insertion is
consed on the front). -/
abbrev Resource := List (String × Value)

/-- Go map read `r[k]`: the value bound to `k`, or `nil` when absent. -/
def rlook (r : Resource) (k : String) : Value :=
  match r.find? (fun p => p.1 = k) with
  | some p => p.2
  | none => .vnull

/-- Go type assertion `v.(string)`. -/
def Value.asString : Value → Option String
  | .vstr s => some s
  | _ => none

/-- Go type assertion `v.(bool)`. -/
def Value.asBool : Value → Option Bool
  | .vbool b => some b
  | _ => none

/-- Go type assertion `v.(map[string]interface{})`. -/
def Value.asObj : Value → Option (List (String × Value))
  | .vobj fs => some fs
  | _ => none

/-- Go type assertion `v.([]interface{})`. -/
def Value.asArr : Value → Option (List Value)
  | .varr xs => some xs
  | _ => none

/-- Field lookup inside an object value (used to inspect POSTed payloads). -/
def Value.olook : Value → String → Option Value
  | .vobj fs, k =>
      match fs.find? (fun p => p.1 = k) with
      | some p => some p.2
      | none => none
  | _, _ => none

/-- `migration.toInt` (fields.go): numeric JSON values convert, everything
else is 0. -/
def toInt : Value → Int
  | .vnum n => n
  | _ => 0

/-- `migration.resourceID` (fields.go). -/
def resourceID (r : Resource) : Int := toInt (rlook r "id")

/-- `migration.resourceName` (fields.go): `name`, else `username`, else "". -/
def resourceName (r : Resource) : String :=
  match (rlook r "name").asString with
  | some n => n
  | none =>
    match (rlook r "username").asString with
    | some u => u
    | none => ""

/-- `migration.stringField` (fields.go). -/
def stringField (r : Resource) (f : String) : String :=
  ((rlook r f).asString).getD ""

/-- `migration.intField` (fields.go). -/
def intField (r : Resource) (f : String) : Int := toInt (rlook r f)

/-- `migration.boolField` (fields.go). -/
def boolField (r : Resource) (f : String) : Bool :=
  ((rlook r f).asBool).getD false

/-- `migration.summaryField` (fields.go): navigates
`summary_fields.<sec>.<field>`. -/
def summaryField (r : Resource) (sec field : String) : Value :=
  match (rlook r "summary_fields").asObj with
  | none => .vnull
  | some sf =>
    match (rlook sf sec).asObj with
    | none => .vnull
    | some s => rlook s field

/-- `migration.extractOrgName`. -/
def extractOrgName (r : Resource) : String :=
  ((summaryField r "organization" "name").asString).getD ""

/-- `migration.extractProjectName`. -/
def extractProjectName (r : Resource) : String :=
  ((summaryField r "project" "name").asString).getD ""

/-- `migration.extractInventoryName`. -/
def extractInventoryName (r : Resource) : String :=
  ((summaryField r "inventory" "name").asString).getD ""

/-- `migration.extractCredTypeName`. -/
def extractCredTypeName (r : Resource) : String :=
  ((summaryField r "credential_type" "name").asString).getD ""

/-- `migration.extractSCMCredName`. -/
def extractSCMCredName (r : Resource) : String :=
  ((summaryField r "credential" "name").asString).getD ""

/-- `migration.extractUnifiedJTName`. -/
def extractUnifiedJTName (r : Resource) : String :=
  ((summaryField r "unified_job_template" "name").asString).getD ""

/-- `migration.extractCredentialNames`: names from
`summary_fields.credentials[].name`. -/
def extractCredentialNames (r : Resource) : List String :=
  match (rlook r "summary_fields").asObj with
  | none => []
  | some sf =>
    match (rlook sf "credentials").asArr with
    | none => []
    | some creds =>
      creds.foldl (fun acc c =>
        match c.asObj with
        | none => acc
        | some cm =>
          match (rlook cm "name").asString with
          | some n => acc ++ [n]
          | none => acc) []

/-! ## Version comparison (`internal/platform`, discovery helpers) -/

/-- Splitting a character list on `'.'` (the behaviour of
`strings.Split(v, ".")` for the one-character separator; a structurally
recursive definition so that concrete instances evaluate). -/
def splitOnDot : List Char → List (List Char)
  | [] => [[]]
  | c :: rest =>
    if c = '.' then [] :: splitOnDot rest
    else
      match splitOnDot rest with
      | [] => [[c]]
      | g :: gs => (c :: g) :: gs

/-- Numeric value of a digit string (used by the embedded `strconv.Atoi`). -/
def digitsVal (l : List Char) : Nat :=
  l.foldl (fun a c => a * 10 + (c.toNat - 48)) 0

/-- Go's largest `int` value (64-bit); `strconv.Atoi` returns a range
error for anything beyond it. -/
def maxGoInt : Nat := 9223372036854775807

/-- `strconv.Atoi`: optional sign followed by at least one digit, `none`
on empty input, a non-digit, or a value outside Go's 64-bit `int` range
(the fast path handles at most 18 digits, which cannot overflow; the slow
path is `ParseInt`, whose `ErrRange` makes `Atoi` return an error —
`parseVersionParts` then stops at that part). -/
def goAtoi : List Char → Option Int
  | [] => none
  | c :: rest =>
    if c = '+' then
      if rest ≠ [] ∧ rest.all Char.isDigit ∧ digitsVal rest ≤ maxGoInt then
        some (digitsVal rest)
      else none
    else if c = '-' then
      if rest ≠ [] ∧ rest.all Char.isDigit ∧ digitsVal rest ≤ maxGoInt + 1 then
        some (-(digitsVal rest : Int))
      else none
    else if (c :: rest).all Char.isDigit ∧ digitsVal (c :: rest) ≤ maxGoInt then
      some (digitsVal (c :: rest))
    else none

/-- Helper for `parseVersionParts`: stop at the first part `Atoi` rejects. -/
def parsePartsAux : List (List Char) → List Int
  | [] => []
  | p :: ps =>
    match goAtoi p with
    | none => []
    | some n => n :: parsePartsAux ps

/-- `platform.parseVersionParts`: split on `.`, convert each part with
`Atoi`, stopping at the first non-numeric part. -/
def parseVersionParts (v : String) : List Int :=
  parsePartsAux (splitOnDot v.data)

/-- `cmpParts [] bs`: the comparison loop once the left version is
exhausted (its parts read as 0). -/
def cmpZero : List Int → Int
  | [] => 0
  | b :: bs => if 0 < b then -1 else if b < 0 then 1 else cmpZero bs

/-- The padded part-by-part comparison loop of `platform.CompareVersions`
(missing parts read as 0). -/
def cmpParts : List Int → List Int → Int
  | [], bs => cmpZero bs
  | a :: as, [] => if a < 0 then -1 else if 0 < a then 1 else cmpParts as []
  | a :: as, b :: bs => if a < b then -1 else if b < a then 1 else cmpParts as bs

/-- `platform.CompareVersions`. -/
def CompareVersions (a b : String) : Int :=
  cmpParts (parseVersionParts a) (parseVersionParts b)

/-- `platform.VersionAtLeast`. -/
def VersionAtLeast (version min : String) : Bool :=
  if version = "" ∨ min = "" then true
  else decide (CompareVersions version min ≥ 0)

/-- Spec-side comparison, from the spec's words: "split both on `.`,
compare numerically part-by-part, missing parts treated as zero",
`v ≥ min`. -/
def specLexGEZero : List Nat → Bool
  | [] => true
  | b :: bs => if 0 < b then false else specLexGEZero bs

/-- Spec-side `v ≥ min` on part lists, with zero padding. -/
def specLexGE : List Nat → List Nat → Bool
  | [], bs => specLexGEZero bs
  | a :: as, [] => if 0 < a then true else specLexGE as []
  | a :: as, b :: bs => if a < b then false else if b < a then true else specLexGE as bs

/-- Spec-side numeric parts of a version string (meaningful only when every
part is a digit string, which the claim's hypothesis guarantees). -/
def specParts (v : String) : List Nat :=
  (splitOnDot v.data).map digitsVal

/-- A version string all of whose dot-separated parts are nonempty digit
strings. -/
def allNumeric (v : String) : Prop :=
  ∀ p ∈ splitOnDot v.data, p ≠ [] ∧ p.all Char.isDigit

instance (v : String) : Decidable (allNumeric v) := by
  unfold allNumeric; infer_instance

/-- Every dot-separated part's value fits Go's 64-bit `int`, so `Atoi`
raises no range error on it. -/
def atoiFits (v : String) : Prop :=
  ∀ p ∈ splitOnDot v.data, digitsVal p ≤ maxGoInt

instance (v : String) : Decidable (atoiFits v) := by
  unfold atoiFits; infer_instance

example : VersionAtLeast "23.4.0" "23.0.0" = true := by decide
example : VersionAtLeast "4.7.8" "4.8.0" = false := by decide
example : VersionAtLeast "" "1.0.0" = true := by decide
example : VersionAtLeast "1.0.0" "" = true := by decide
example : VersionAtLeast "1.0" "1.0.0" = true := by decide
example : VersionAtLeast "2" "1.9.9" = true := by decide

theorem goAtoi_digits (p : List Char) (hne : p ≠ []) (hd : p.all Char.isDigit = true)
    (hr : digitsVal p ≤ maxGoInt) :
    goAtoi p = some ((digitsVal p : Int)) := by
  match p, hne with
  | c :: rest, _ =>
    have hc : c.isDigit = true := by
      have := List.all_eq_true.mp hd c (List.mem_cons_self c rest)
      exact this
    have h1 : ¬ (c = '+') := fun h => by subst h; exact absurd hc (by decide)
    have h2 : ¬ (c = '-') := fun h => by subst h; exact absurd hc (by decide)
    simp [goAtoi, h1, h2, hd, hr]

theorem parsePartsAux_digits (ps : List (List Char))
    (h : ∀ p ∈ ps, p ≠ [] ∧ p.all Char.isDigit = true ∧ digitsVal p ≤ maxGoInt) :
    parsePartsAux ps = ps.map (fun p => (digitsVal p : Int)) := by
  induction ps with
  | nil => rfl
  | cons p ps ih =>
    have hp := h p (List.mem_cons_self p ps)
    rw [parsePartsAux, goAtoi_digits p hp.1 hp.2.1 hp.2.2, List.map_cons,
      ih (fun q hq => h q (List.mem_cons_of_mem p hq))]

theorem parseVersionParts_numeric (v : String) (h : allNumeric v) (hf : atoiFits v) :
    parseVersionParts v = (specParts v).map Int.ofNat := by
  unfold parseVersionParts specParts
  rw [parsePartsAux_digits _
      (fun p hp => ⟨(h p hp).1, by simpa using (h p hp).2, hf p hp⟩),
    List.map_map]
  rfl

theorem cmpZero_nonneg_iff (ys : List Nat) :
    0 ≤ cmpZero (ys.map Int.ofNat) ↔ specLexGEZero ys = true := by
  induction ys with
  | nil => simp [cmpZero, specLexGEZero]
  | cons b bs ih =>
    by_cases hb : 0 < b
    · have hb' : (0 : Int) < (b : Int) := by exact_mod_cast hb
      simp [cmpZero, specLexGEZero, hb, hb']
    · have hb' : ¬ ((0 : Int) < (b : Int)) := by exact_mod_cast hb
      have hb2 : ¬ ((b : Int) < 0) := by omega
      simp [cmpZero, specLexGEZero, hb, hb', hb2, ih]

theorem cmpParts_nonneg_iff (xs : List Nat) :
    ∀ ys : List Nat,
      (0 ≤ cmpParts (xs.map Int.ofNat) (ys.map Int.ofNat) ↔ specLexGE xs ys = true) := by
  induction xs with
  | nil =>
    intro ys
    simpa [cmpParts, specLexGE] using cmpZero_nonneg_iff ys
  | cons a as ih =>
    intro ys
    cases ys with
    | nil =>
      have ha : ¬ ((a : Int) < 0) := by omega
      by_cases h0 : 0 < a
      · have h0' : (0 : Int) < (a : Int) := by exact_mod_cast h0
        simp [cmpParts, specLexGE, ha, h0, h0']
      · have h0' : ¬ ((0 : Int) < (a : Int)) := by exact_mod_cast h0
        simpa [cmpParts, specLexGE, ha, h0, h0'] using ih []
    | cons b bs =>
      rcases lt_trichotomy a b with hab | hab | hab
      · have hab' : (a : Int) < (b : Int) := by exact_mod_cast hab
        simp [cmpParts, specLexGE, hab, hab']
      · subst hab
        have h1 : ¬ ((a : Int) < (a : Int)) := lt_irrefl _
        simpa [cmpParts, specLexGE, h1] using ih bs
      · have hab' : (b : Int) < (a : Int) := by exact_mod_cast hab
        have h1 : ¬ ((a : Int) < (b : Int)) := not_lt_of_gt hab'
        have h2 : ¬ (a < b) := not_lt_of_gt hab
        simp [cmpParts, specLexGE, h1, h2, hab, hab']

/-- C7 counterexample: a part beyond Go's 64-bit `int` range makes
`strconv.Atoi` return a range error, so `parseVersionParts` truncates the
version to `[]` and `VersionAtLeast("99999999999999999999", "2")` is
`false` — although part-by-part numeric comparison with zero padding says
the left version is the larger one, refuting the claimed equivalence. -/
theorem versionAtLeast_overflow :
    VersionAtLeast "99999999999999999999" "2" = false ∧
    specLexGE (specParts "99999999999999999999") (specParts "2") = true := by
  constructor
  · decide
  · decide

/-- C7 (amended): `VersionAtLeast(v, min)` is true when either argument is
empty (first conjunct, no side condition); for version strings whose
dot-separated parts are all numeric *and within `Atoi`'s range* (no range
error, so no truncation) it is true exactly when `v` is at least `min`
under part-by-part numeric comparison with zero padding (the spec-side
`specLexGE` over `specParts`). -/
theorem versionAtLeast_correct :
    (∀ x : String, VersionAtLeast "" x = true ∧ VersionAtLeast x "" = true) ∧
    (∀ v m : String, allNumeric v → allNumeric m → atoiFits v → atoiFits m →
      (VersionAtLeast v m = true ↔ specLexGE (specParts v) (specParts m) = true)) := by
  constructor
  · intro x
    constructor
    · simp [VersionAtLeast]
    · simp [VersionAtLeast]
  · intro v m hv hm hfv hfm
    have hv' : v ≠ "" := by
      intro h; subst h
      exact (hv [] (by decide)).1 rfl
    have hm' : m ≠ "" := by
      intro h; subst h
      exact (hm [] (by decide)).1 rfl
    unfold VersionAtLeast
    rw [if_neg (by tauto)]
    simp only [decide_eq_true_eq, ge_iff_le]
    unfold CompareVersions
    rw [parseVersionParts_numeric v hv hfv, parseVersionParts_numeric m hm hfm]
    exact cmpParts_nonneg_iff _ _

/-- Witness for C7: instantiates `versionAtLeast_correct` at `23.4.0` vs
`23.0.0`, discharging the numeric-parts and range hypotheses by
evaluation. -/
theorem versionAtLeast_correct_witness :
    VersionAtLeast "23.4.0" "23.0.0" = true ↔
      specLexGE (specParts "23.4.0") (specParts "23.0.0") = true :=
  versionAtLeast_correct.2 "23.4.0" "23.0.0" (by decide) (by decide)
    (by decide) (by decide)



/-! ## Registry path rewriting (`platform.rewritePaths`) -/

/-- A `map[string]bool` skip set. -/
abbrev SkipMap := List (String × Bool)

/-- Go maps are reference values; a `models.ResourceType` holds either a
nil `Skip` map or a reference into the heap of maps. -/
structure ResourceTypeH where
  name : String
  label : String
  apiPath : String
  skipRef : Option Nat
deriving Repr, DecidableEq

/-- The heap of `Skip` maps: contents per reference plus the next fresh
reference. -/
structure Heap where
  maps : List (Nat × SkipMap)
  next : Nat
deriving Repr

/-- Contents of a reference (empty map when dangling). -/
def heapGet (h : Heap) (r : Nat) : SkipMap :=
  match h.maps.find? (fun p => p.1 = r) with
  | some p => p.2
  | none => []

/-- Allocate a fresh map. -/
def heapAlloc (h : Heap) (m : SkipMap) : Heap × Nat :=
  ({ maps := (h.next, m) :: h.maps, next := h.next + 1 }, h.next)

/-- Overwrite a reference (models Go map mutation through a reference). -/
def heapSet (h : Heap) (r : Nat) (m : SkipMap) : Heap :=
  { h with maps := (r, m) :: h.maps }

/-- Every live reference is below `next`. -/
def HeapWF (h : Heap) : Prop := ∀ p ∈ h.maps, p.1 < h.next

instance (h : Heap) : Decidable (HeapWF h) := by
  unfold HeapWF; infer_instance

/-- The recursive worker of `strings.Replace(s, old, new, 1)` for
nonempty `old`: replace the first occurrence only. -/
def replaceFirstAux (old new : List Char) : List Char → List Char
  | [] => []
  | c :: rest =>
    if old.isPrefixOf (c :: rest) then new ++ (c :: rest).drop old.length
    else c :: replaceFirstAux old new rest

/-- `strings.Replace(s, old, new, 1)`: with empty `old` a single copy of
`new` is inserted at the start; otherwise the first occurrence of `old`
is replaced. -/
def stringsReplace1 (s old new : String) : String :=
  if old.data = [] then ⟨new.data ++ s.data⟩
  else ⟨replaceFirstAux old.data new.data s.data⟩

/-- The per-entry body of `platform.rewritePaths`: copy the struct,
rewrite `APIPath`, and deep-copy the `Skip` map into a fresh reference. -/
def rewriteOne (h : Heap) (r : ResourceTypeH) (oldP newP : String) :
    Heap × ResourceTypeH :=
  let r' := { r with apiPath := stringsReplace1 r.apiPath oldP newP }
  match r.skipRef with
  | none => (h, r')
  | some ref =>
    let p := heapAlloc h (heapGet h ref)
    (p.1, { r' with skipRef := some p.2 })

/-- `platform.rewritePaths`: returns a copy of the registry with API paths
rewritten from `oldP` to `newP` (the loop of the Go function, in slice
order). -/
def rewritePaths (h : Heap) : List ResourceTypeH → String → String → Heap × List ResourceTypeH
  | [], _, _ => (h, [])
  | r :: rs, oldP, newP =>
    let p1 := rewriteOne h r oldP newP
    let p2 := rewritePaths p1.1 rs oldP newP
    (p2.1, p1.2 :: p2.2)

theorem heapGet_alloc_lt (h : Heap) (m : SkipMap) (r : Nat) (hr : r < h.next) :
    heapGet (heapAlloc h m).1 r = heapGet h r := by
  unfold heapAlloc heapGet
  simp only [List.find?]
  have : ¬ (h.next = r) := by omega
  simp [this]

theorem heapAlloc_next (h : Heap) (m : SkipMap) :
    (heapAlloc h m).1.next = h.next + 1 := rfl

theorem heapAlloc_wf (h : Heap) (m : SkipMap) (hwf : HeapWF h) :
    HeapWF (heapAlloc h m).1 := by
  intro p hp
  rcases List.mem_cons.mp hp with hp | hp
  · subst hp; simp [heapAlloc]
  · have := hwf p hp
    simp only [heapAlloc]
    omega

theorem heapGet_alloc_self (h : Heap) (m : SkipMap) :
    heapGet (heapAlloc h m).1 h.next = m := by
  unfold heapAlloc heapGet
  simp

/-- The pairwise relation between an input registry entry and its
rewritten copy, relative to the input heap `h` and the output heap `hout`:
the path is the source path with the first occurrence of `oldP` replaced
by `newP`, the other scalar fields are preserved, and the skip set is a
content-equal deep copy at a reference that is fresh for `h`. -/
def RewrittenEntry (h hout : Heap) (oldP newP : String) (r r' : ResourceTypeH) : Prop :=
  r'.name = r.name ∧ r'.label = r.label ∧
  r'.apiPath = stringsReplace1 r.apiPath oldP newP ∧
  ((r.skipRef = none ∧ r'.skipRef = none) ∨
    (∃ ref nref, r.skipRef = some ref ∧ r'.skipRef = some nref ∧
      h.next ≤ nref ∧ nref < hout.next ∧ heapGet hout nref = heapGet h ref))

/-- All skip references held by a registry slice are live in the heap. -/
def regWF (h : Heap) (rs : List ResourceTypeH) : Bool :=
  rs.all (fun r =>
    match r.skipRef with
    | none => true
    | some ref => decide (ref < h.next))

theorem regWF_spec (h : Heap) (rs : List ResourceTypeH) (hr : regWF h rs = true) :
    ∀ r ∈ rs, ∀ ref, r.skipRef = some ref → ref < h.next := by
  intro r hmem ref href
  have := List.all_eq_true.mp hr r hmem
  rw [href] at this
  exact of_decide_eq_true this

theorem rewriteOne_spec (h : Heap) (r : ResourceTypeH) (oldP newP : String)
    (hwf : HeapWF h) :
    HeapWF (rewriteOne h r oldP newP).1 ∧
    h.next ≤ (rewriteOne h r oldP newP).1.next ∧
    (∀ q, q < h.next → heapGet (rewriteOne h r oldP newP).1 q = heapGet h q) ∧
    RewrittenEntry h (rewriteOne h r oldP newP).1 oldP newP r (rewriteOne h r oldP newP).2 := by
  cases hsr : r.skipRef with
  | none =>
    refine ⟨?_, ?_, ?_, ?_⟩
    · simpa [rewriteOne, hsr] using hwf
    · simp [rewriteOne, hsr]
    · intro q _; simp [rewriteOne, hsr]
    · exact ⟨by simp [rewriteOne, hsr], by simp [rewriteOne, hsr],
        by simp [rewriteOne, hsr], Or.inl ⟨hsr, by simp [rewriteOne, hsr]⟩⟩
  | some ref =>
    refine ⟨?_, ?_, ?_, ?_⟩
    · simpa [rewriteOne, hsr] using heapAlloc_wf h (heapGet h ref) hwf
    · simp [rewriteOne, hsr, heapAlloc]
    · intro q hq
      simpa [rewriteOne, hsr] using heapGet_alloc_lt h (heapGet h ref) q hq
    · refine ⟨by simp [rewriteOne, hsr], by simp [rewriteOne, hsr],
        by simp [rewriteOne, hsr], Or.inr ⟨ref, h.next, hsr, ?_, le_refl _, ?_, ?_⟩⟩
      · simp [rewriteOne, hsr, heapAlloc]
      · simp [rewriteOne, hsr, heapAlloc]
      · simpa [rewriteOne, hsr] using heapGet_alloc_self h (heapGet h ref)

theorem rewrittenEntry_weaken (h h1 hout : Heap) (oldP newP : String)
    (le1 : h.next ≤ h1.next)
    (pres1 : ∀ q, q < h.next → heapGet h1 q = heapGet h q) :
    ∀ rs rs', (∀ r ∈ rs, ∀ ref, r.skipRef = some ref → ref < h.next) →
      List.Forall₂ (RewrittenEntry h1 hout oldP newP) rs rs' →
      List.Forall₂ (RewrittenEntry h hout oldP newP) rs rs' := by
  intro rs rs' hreg hf
  induction hf with
  | nil => exact List.Forall₂.nil
  | cons hab hrest ihf =>
    refine List.Forall₂.cons ?_ (ihf (fun x hx => hreg x (List.mem_cons_of_mem _ hx)))
    obtain ⟨e1, e2, e3, e4⟩ := hab
    refine ⟨e1, e2, e3, ?_⟩
    rcases e4 with ⟨hn, hn'⟩ | ⟨ref, nref, hr1, hr2, hr3, hr4, hr5⟩
    · exact Or.inl ⟨hn, hn'⟩
    · have hlt : ref < h.next := hreg _ (List.mem_cons_self _ _) ref hr1
      exact Or.inr ⟨ref, nref, hr1, hr2, le_trans le1 hr3, hr4,
        by rw [hr5, pres1 ref hlt]⟩

/-- C9: for every registry entry, `rewritePaths` returns an entry whose
`api_path` equals the original path with `oldP` replaced by `newP`
(`strings.Replace(..., 1)`), the original entries and every pre-existing
skip set in the heap are left unchanged, and each rewritten entry's skip
set is a content-equal deep copy at a fresh reference, so the copy shares
no state with the original. -/
theorem rewritePaths_spec (oldP newP : String) (rs : List ResourceTypeH) :
    ∀ h : Heap, HeapWF h → regWF h rs = true →
      HeapWF (rewritePaths h rs oldP newP).1 ∧
      h.next ≤ (rewritePaths h rs oldP newP).1.next ∧
      (∀ q, q < h.next → heapGet (rewritePaths h rs oldP newP).1 q = heapGet h q) ∧
      List.Forall₂ (RewrittenEntry h (rewritePaths h rs oldP newP).1 oldP newP)
        rs (rewritePaths h rs oldP newP).2 := by
  induction rs with
  | nil =>
    intro h hwf _
    exact ⟨hwf, le_refl _, fun q _ => rfl, List.Forall₂.nil⟩
  | cons r rs ih =>
    intro h hwf hreg
    obtain ⟨wf1, le1, pres1, ent1⟩ := rewriteOne_spec h r oldP newP hwf
    have hreg1 : regWF (rewriteOne h r oldP newP).1 rs = true := by
      unfold regWF
      rw [List.all_eq_true]
      intro x hx
      have := List.all_eq_true.mp hreg x (List.mem_cons_of_mem r hx)
      cases hsx : x.skipRef with
      | none => simp
      | some ref =>
        rw [hsx] at this
        have := of_decide_eq_true this
        simp only [decide_eq_true_eq]
        omega
    obtain ⟨wf2, le2, pres2, ent2⟩ := ih (rewriteOne h r oldP newP).1 wf1 hreg1
    refine ⟨?_, ?_, ?_, ?_⟩
    · simpa [rewritePaths] using wf2
    · simp only [rewritePaths]
      exact le_trans le1 le2
    · intro q hq
      simp only [rewritePaths]
      rw [pres2 q (lt_of_lt_of_le hq le1), pres1 q hq]
    · simp only [rewritePaths]
      refine List.Forall₂.cons ?_ ?_
      · -- transport the head relation from the intermediate to the final heap
        obtain ⟨e1, e2, e3, e4⟩ := ent1
        refine ⟨e1, e2, e3, ?_⟩
        rcases e4 with ⟨hn, hn'⟩ | ⟨ref, nref, hr1, hr2, hr3, hr4, hr5⟩
        · exact Or.inl ⟨hn, hn'⟩
        · exact Or.inr ⟨ref, nref, hr1, hr2, hr3, lt_of_lt_of_le hr4 le2,
            by rw [pres2 nref hr4, hr5]⟩
      · -- weaken the tail relation from the intermediate heap to the input heap
        exact rewrittenEntry_weaken h (rewriteOne h r oldP newP).1 _ oldP newP le1 pres1
          rs (rewritePaths (rewriteOne h r oldP newP).1 rs oldP newP).2
          (fun x hx => regWF_spec h (r :: rs) hreg x (List.mem_cons_of_mem r hx)) ent2

/-- The AWX registry rows used by the witness (first two rows of
`awxResources`). -/
def sampleHeap : Heap := { maps := [(0, [("Default", true)])], next := 1 }

def sampleRegistry : List ResourceTypeH :=
  [{ name := "organizations", label := "Organizations",
     apiPath := "/api/v2/organizations/", skipRef := some 0 },
   { name := "teams", label := "Teams",
     apiPath := "/api/v2/teams/", skipRef := none }]

/-- Witness for C9: instantiates `rewritePaths_spec` on a concrete
two-entry registry, discharging the well-formedness hypotheses by
evaluation. -/
theorem rewritePaths_spec_witness :
    HeapWF (rewritePaths sampleHeap sampleRegistry "/api/v2/" "/api/v3/").1 ∧
    sampleHeap.next ≤ (rewritePaths sampleHeap sampleRegistry "/api/v2/" "/api/v3/").1.next ∧
    (∀ q, q < sampleHeap.next →
      heapGet (rewritePaths sampleHeap sampleRegistry "/api/v2/" "/api/v3/").1 q =
        heapGet sampleHeap q) ∧
    List.Forall₂
      (RewrittenEntry sampleHeap
        (rewritePaths sampleHeap sampleRegistry "/api/v2/" "/api/v3/").1 "/api/v2/" "/api/v3/")
      sampleRegistry (rewritePaths sampleHeap sampleRegistry "/api/v2/" "/api/v3/").2 :=
  rewritePaths_spec "/api/v2/" "/api/v3/" sampleRegistry sampleHeap
    (by decide) (by decide)

example :
    (rewritePaths sampleHeap sampleRegistry "/api/v2/" "/api/v3/").2.map (·.apiPath) =
      ["/api/v3/organizations/", "/api/v3/teams/"] := by decide

/-! ## Job lifecycle (`internal/models/job.go`) -/

/-- `models.Job` (the fields written by the lifecycle methods; identity
fields `ID`, `Type`, `ConnectionID`, `StartedAt` are never touched by
`Complete`/`Fail`/`AppendLog` and are omitted). `time.Now()` is abstracted
into an explicit timestamp argument. -/
structure Job where
  status : String
  error : String
  finishedAt : Option Nat
  output : List String
deriving Repr, DecidableEq

/-- `JobStore.Create`: a fresh job is `running` with empty output. -/
def Job.create : Job :=
  { status := "running", error := "", finishedAt := none, output := [] }

/-- `Job.AppendLog`. -/
def Job.appendLog (j : Job) (line : String) : Job :=
  { j with output := j.output ++ [line] }

/-- `Job.Complete`: unconditionally sets `Status = "completed"` and
`FinishedAt`. -/
def Job.complete (j : Job) (now : Nat) : Job :=
  { j with status := "completed", finishedAt := some now }

/-- `Job.Fail`: unconditionally sets `Status = "failed"`, `Error`, and
`FinishedAt`. -/
def Job.fail (j : Job) (err : String) (now : Nat) : Job :=
  { j with status := "failed", error := err, finishedAt := some now }

/-- Counterexample to C4: `Complete`/`Fail` are not idempotent with the
first call winning — a `Fail` after a `Complete` overwrites the terminal
status (and `finishedAt`), i.e. the last call wins. -/
theorem job_terminal_not_first_wins :
    ((Job.create.complete 1).fail "connection refused" 2).status ≠
      (Job.create.complete 1).status ∧
    ((Job.create.complete 1).fail "connection refused" 2).status = "failed" ∧
    ((Job.create.complete 1).fail "connection refused" 2).finishedAt = some 2 ∧
    (Job.create.complete 1).finishedAt = some 1 := by
  refine ⟨?_, rfl, rfl, rfl⟩
  decide

/-- C4 (amended): `Complete` and `Fail` unconditionally set the terminal
status, and set `finishedAt`; a subsequent call overwrites status, error
and `finishedAt` — the last call wins, not the first — and after any
`Complete`/`Fail` call `finishedAt` is set. -/
theorem job_terminal_last_wins (j : Job) (t1 t2 : Nat) (e : String) :
    (j.complete t1).status = "completed" ∧
    (j.complete t1).finishedAt = some t1 ∧
    (j.fail e t1).status = "failed" ∧
    (j.fail e t1).error = e ∧
    (j.fail e t1).finishedAt = some t1 ∧
    ((j.complete t1).fail e t2) =
      { j with status := "failed", error := e, finishedAt := some t2 } ∧
    ((j.fail e t1).complete t2) =
      { j with status := "completed", error := e, finishedAt := some t2 } :=
  ⟨rfl, rfl, rfl, rfl, rfl, rfl, rfl⟩

/-! ## Export default filtering (`migration.fetchFiltered`, part_004) -/

/-- `migration.skipNames`: default/system resource names skipped during
export. -/
def skipNames : List (String × List (String × Bool)) :=
  [("organizations", [("Default", true)]),
   ("users", [("admin", true)]),
   ("credentials", [("Demo Credential", true), ("Ansible Galaxy", true)]),
   ("projects", [("Demo Project", true)]),
   ("inventories", [("Demo Inventory", true)]),
   ("job_templates", [("Demo Job Template", true)])]

/-- `skipNames[typeName]` (nil when the type has no skip set). -/
def skipSetFor (typeName : String) : Option (List (String × Bool)) :=
  match skipNames.find? (fun p => p.1 = typeName) with
  | some p => some p.2
  | none => none

/-- The guard `skip != nil && skip[name]` of `fetchFiltered`. -/
def skipHit (typeName name : String) : Bool :=
  match skipSetFor typeName with
  | none => false
  | some m =>
    match m.find? (fun p => p.1 = name) with
    | some p => p.2
    | none => false

/-- `migration.fetchFiltered`, with the `GetAll` result supplied as the
`all` parameter (the successful path; an error return fetches nothing).
Returns the filtered resources and the emitted log lines. -/
def fetchFiltered (typeName : String) (all : List Resource) :
    List Resource × List String :=
  let filtered := all.filter (fun r => !(skipHit typeName (resourceName r)))
  (filtered,
    ["Exporting " ++ typeName ++ "...",
     "  " ++ toString filtered.length ++ " " ++ typeName ++
       " (skipped " ++ toString (all.length - filtered.length) ++ " defaults)"])

theorem skipHit_of_none (t n : String)
    (h : ∀ m ∈ skipNames, m.2.find? (fun p => p.1 = n) = none) :
    skipHit t n = false := by
  unfold skipHit skipSetFor
  cases hf : skipNames.find? (fun p => p.1 = t) with
  | none => rfl
  | some m =>
    have hm : m ∈ skipNames := List.mem_of_find?_eq_some hf
    simp [h m hm]

/-- No per-type default set contains the empty name, so resources with an
empty natural key are never filtered. -/
theorem skipHit_empty_name (t : String) : skipHit t "" = false :=
  skipHit_of_none t "" (by decide)

/-- A resource with no `name` and no `username`: its natural key is empty. -/
def noNameRes : Resource := [("description", Value.vstr "no natural key")]

/-- Counterexample to C8: a resource whose natural key is empty is NOT
skipped by the export filter and no warning is logged — `fetchFiltered`
keeps it and emits only the two bookkeeping lines. -/
theorem fetchFiltered_empty_name_kept :
    (fetchFiltered "organizations" [noNameRes]).1 = [noNameRes] ∧
    (fetchFiltered "organizations" [noNameRes]).2 =
      ["Exporting organizations...", "  1 organizations (skipped 0 defaults)"] :=
  ⟨rfl, rfl⟩

/-- C8 (amended): export filtering drops exactly the per-type default
names of `skipNames`; a resource whose natural key is empty is always
kept, and the only log lines are the two bookkeeping lines (no warning
is emitted for any resource). -/
theorem fetchFiltered_spec (typeName : String) (all : List Resource) :
    (fetchFiltered typeName all).1 =
      all.filter (fun r => !(skipHit typeName (resourceName r))) ∧
    (∀ r ∈ all, resourceName r = "" → r ∈ (fetchFiltered typeName all).1) ∧
    (fetchFiltered typeName all).2 =
      ["Exporting " ++ typeName ++ "...",
       "  " ++ toString (fetchFiltered typeName all).1.length ++ " " ++ typeName ++
         " (skipped " ++ toString (all.length - (fetchFiltered typeName all).1.length) ++
         " defaults)"] := by
  refine ⟨rfl, ?_, rfl⟩
  intro r hr hname
  unfold fetchFiltered
  simp only [List.mem_filter]
  exact ⟨hr, by rw [hname, skipHit_empty_name]; rfl⟩

/-- Witness for C8's amended theorem: the empty-keyed resource above is in
the filtered output. -/
theorem fetchFiltered_spec_witness :
    noNameRes ∈ (fetchFiltered "organizations" [noNameRes]).1 :=
  (fetchFiltered_spec "organizations" [noNameRes]).2.1 noNameRes
    (List.mem_cons_self _ _) rfl

/-! ## Preflight (`internal/migration/preflight.go`) -/

/-- `models.MigrationResource` (`rtype` embeds the Go field `Type`, whose
name is reserved in Lean). -/
structure MigrationResource where
  sourceID : Int
  name : String
  rtype : String
  action : String
  destID : Int
deriving Repr, DecidableEq

/-- `models.MigrationPreview` (the connection-ID fields, set by the caller
after the check, are omitted; `resources` is the Go map built in
`previewOrder` key order, with a key only once items were appended). -/
structure MigrationPreview where
  resources : List (String × List MigrationResource)
  warnings : List String
deriving Repr, DecidableEq

/-- `migration.previewOrder`. -/
def previewOrder : List String :=
  ["organizations", "teams", "users", "credential_types", "credentials",
   "projects", "inventories", "job_templates", "workflow_job_templates", "schedules"]

/-- `migration.ExportedData` (maps keyed by source IDs are association
lists; Go's unspecified map iteration order is fixed to list order). -/
structure ExportedData where
  organizations : List Resource
  teams : List Resource
  users : List Resource
  credentialTypes : List Resource
  credentials : List Resource
  projects : List Resource
  inventories : List Resource
  hosts : List (Int × List Resource)
  groups : List (Int × List Resource)
  groupHosts : List (Int × List Int)
  jobTemplates : List Resource
  surveys : List (Int × Resource)
  workflowJTs : List Resource
  workflowNodes : List (Int × List Resource)
  schedules : List Resource
  orgUsers : List (Int × List String)
  teamUsers : List (Int × List String)

/-- `migration.dataForType`. -/
def dataForType (data : ExportedData) (typeName : String) : List Resource :=
  if typeName = "organizations" then data.organizations
  else if typeName = "teams" then data.teams
  else if typeName = "users" then data.users
  else if typeName = "credential_types" then data.credentialTypes
  else if typeName = "credentials" then data.credentials
  else if typeName = "projects" then data.projects
  else if typeName = "inventories" then data.inventories
  else if typeName = "job_templates" then data.jobTemplates
  else if typeName = "workflow_job_templates" then data.workflowJTs
  else if typeName = "schedules" then data.schedules
  else []

/-- The destination, as seen by the preflight check: `FindByName` /
`FindByUsername` against the path `prefix+rt+"/"` (identified here by the
type name `rt`). The outer `Option` is the error outcome of the HTTP
search; the inner one is "no result". -/
structure PreflightDest where
  findByName : String → String → Option (Option Resource)
  findByUsername : String → String → Option (Option Resource)

/-- The lookup dispatch of `preflightCheck`'s `switch rt`: users go
through `FindByUsername`; the explicit `credential_types` arm of the Go
switch performs exactly the default `FindByName` call and is folded into
it. -/
def preflightLookup (dst : PreflightDest) (rt name : String) :
    Option (Option Resource) :=
  if rt = "users" then dst.findByUsername rt name else dst.findByName rt name

/-- The per-item body of `preflightCheck`: classify as `skip_exists`
(recording the destination's ID) when the lookup succeeded with a result,
else `create` (DestID keeps its zero value). -/
def mrOf (dst : PreflightDest) (rt : String) (item : Resource) : MigrationResource :=
  match preflightLookup dst rt (resourceName item) with
  | some (some existing) =>
    { sourceID := resourceID item, name := resourceName item, rtype := rt,
      action := "skip_exists", destID := resourceID existing }
  | _ =>
    { sourceID := resourceID item, name := resourceName item, rtype := rt,
      action := "create", destID := 0 }

/-- The warning strings of `preflightCheck`. -/
def credWarning : String :=
  "Credential secrets cannot be exported via API. Credentials will be created with empty inputs — you must set secrets manually after migration."

def userWarning : String :=
  "User passwords cannot be exported. Users will be created with a placeholder password (changeme!) and must be reset."

/-- `migration.preflightCheck`: for each type in `previewOrder` and each
exported item, look up the destination by natural key and classify;
returns the preview and the emitted log lines. -/
def preflightCheck (data : ExportedData) (dst : PreflightDest) :
    MigrationPreview × List String :=
  let resources := previewOrder.filterMap (fun rt =>
    let items := dataForType data rt
    if items.isEmpty then none
    else some (rt, items.map (mrOf dst rt)))
  let logs := previewOrder.flatMap (fun rt =>
    let items := dataForType data rt
    if items.isEmpty then []
    else ("Checking " ++ rt ++ " on destination...") ::
      items.filterMap (fun item =>
        match preflightLookup dst rt (resourceName item) with
        | some (some existing) =>
          some ("  " ++ resourceName item ++ ": exists (dest ID " ++
            toString (resourceID existing) ++ ")")
        | _ => none))
  let warnings :=
    (if data.credentials.isEmpty then [] else [credWarning]) ++
    (if data.users.isEmpty then [] else [userWarning])
  ({ resources := resources, warnings := warnings }, logs)

theorem mrOf_spec (dst : PreflightDest) (rt : String) (item : Resource) :
    ((mrOf dst rt item).action = "create" ∨ (mrOf dst rt item).action = "skip_exists") ∧
    ((mrOf dst rt item).name = resourceName item) ∧
    ((mrOf dst rt item).action = "skip_exists" ↔
      ∃ r, preflightLookup dst rt (resourceName item) = some (some r)) ∧
    (∀ r, preflightLookup dst rt (resourceName item) = some (some r) →
      (mrOf dst rt item).destID = resourceID r) ∧
    ((mrOf dst rt item).action = "create" → (mrOf dst rt item).destID = 0) := by
  unfold mrOf
  cases hl : preflightLookup dst rt (resourceName item) with
  | none =>
    refine ⟨Or.inl rfl, rfl, ?_, ?_, fun _ => rfl⟩
    · constructor
      · intro hsk
        exact absurd hsk (show ("create" : String) ≠ "skip_exists" by decide)
      · rintro ⟨r, hr⟩; cases hr
    · intro r hr; cases hr
  | some o =>
    cases o with
    | none =>
      refine ⟨Or.inl rfl, rfl, ?_, ?_, fun _ => rfl⟩
      · constructor
        · intro hsk
          exact absurd hsk (show ("create" : String) ≠ "skip_exists" by decide)
        · rintro ⟨r, hr⟩; cases hr
      · intro r hr; cases hr
    | some existing =>
      refine ⟨Or.inr rfl, rfl, ?_, ?_, ?_⟩
      · exact ⟨fun _ => ⟨existing, rfl⟩, fun _ => rfl⟩
      · intro r hr
        obtain rfl : existing = r := by simpa using hr
        rfl
      · intro hcr
        exact absurd hcr (show ("skip_exists" : String) ≠ "create" by decide)

/-- C3 (amended): every preflight row has action `create` or
`skip_exists`; the action is `skip_exists` exactly when the destination
lookup by the row's natural key succeeded with a result, and then the
row's `destID` equals `resourceID` of that destination resource (so it is
positive exactly when the destination reports a positive id); rows with
action `create` carry `destID = 0`. -/
theorem preflight_action_spec (data : ExportedData) (dst : PreflightDest)
    (rt : String) (mrs : List MigrationResource) (mr : MigrationResource)
    (h1 : (rt, mrs) ∈ (preflightCheck data dst).1.resources)
    (h2 : mr ∈ mrs) :
    (mr.action = "create" ∨ mr.action = "skip_exists") ∧
    (mr.action = "skip_exists" ↔ ∃ r, preflightLookup dst rt mr.name = some (some r)) ∧
    (∀ r, preflightLookup dst rt mr.name = some (some r) → mr.destID = resourceID r) ∧
    (mr.action = "create" → mr.destID = 0) := by
  simp only [preflightCheck, List.mem_filterMap] at h1
  obtain ⟨rt', _hmem, hsome⟩ := h1
  by_cases hemp : (dataForType data rt').isEmpty
  · rw [if_pos hemp] at hsome
    exact absurd hsome (by simp)
  · rw [if_neg hemp] at hsome
    have hpair : (rt', (dataForType data rt').map (mrOf dst rt')) = (rt, mrs) :=
      Option.some.inj hsome
    have hrt : rt' = rt := congrArg Prod.fst hpair
    have hmrs : (dataForType data rt').map (mrOf dst rt') = mrs := congrArg Prod.snd hpair
    subst hrt
    subst hmrs
    obtain ⟨item, _hitem, hmr⟩ := List.mem_map.mp h2
    subst hmr
    obtain ⟨c1, cname, c2, c3, c4⟩ := mrOf_spec dst rt' item
    rw [cname]
    exact ⟨c1, c2, c3, c4⟩

/-- A destination on which every `FindByName` search succeeds with a
result that carries no `id` field (`resourceID` of it is 0). -/
def noIDDest : PreflightDest :=
  { findByName := fun _ _ => some (some [("name", Value.vstr "X")]),
    findByUsername := fun _ _ => some none }

/-- Export graph with a single organization `X`. -/
def oneOrgData : ExportedData :=
  { organizations := [[("id", Value.vnum 1), ("name", Value.vstr "X")]],
    teams := [], users := [], credentialTypes := [], credentials := [],
    projects := [], inventories := [], hosts := [], groups := [],
    groupHosts := [], jobTemplates := [], surveys := [], workflowJTs := [],
    workflowNodes := [], schedules := [], orgUsers := [], teamUsers := [] }

/-- Counterexample to C3 as stated: when the destination search returns a
resource without a positive `id`, preflight still classifies the row as
`skip_exists` but records `destID = 0`, violating "if `skip_exists` then
`destID > 0`". -/
theorem preflight_skip_exists_destID_zero :
    (preflightCheck oneOrgData noIDDest).1.resources =
      [("organizations",
        [{ sourceID := 1, name := "X", rtype := "organizations",
           action := "skip_exists", destID := 0 }])] := by
  rfl

/-- A destination whose `FindByName` reports a row with `id` 7. -/
def id7Dest : PreflightDest :=
  { findByName := fun _ _ => some (some [("id", Value.vnum 7), ("name", Value.vstr "X")]),
    findByUsername := fun _ _ => some none }

/-- Witness for C3's amended theorem: instantiates `preflight_action_spec`
on the one-organization graph against a concrete destination. -/
theorem preflight_action_spec_witness :
    (({ sourceID := 1, name := "X", rtype := "organizations",
        action := "skip_exists", destID := 7 } : MigrationResource).action = "create" ∨
     ({ sourceID := 1, name := "X", rtype := "organizations",
        action := "skip_exists", destID := 7 } : MigrationResource).action = "skip_exists") ∧
    (({ sourceID := 1, name := "X", rtype := "organizations",
        action := "skip_exists", destID := 7 } : MigrationResource).action = "skip_exists" ↔
      ∃ r, preflightLookup id7Dest "organizations"
          ({ sourceID := 1, name := "X", rtype := "organizations",
             action := "skip_exists", destID := 7 } : MigrationResource).name = some (some r)) ∧
    (∀ r, preflightLookup id7Dest "organizations"
          ({ sourceID := 1, name := "X", rtype := "organizations",
             action := "skip_exists", destID := 7 } : MigrationResource).name = some (some r) →
      ({ sourceID := 1, name := "X", rtype := "organizations",
         action := "skip_exists", destID := 7 } : MigrationResource).destID = resourceID r) ∧
    (({ sourceID := 1, name := "X", rtype := "organizations",
        action := "skip_exists", destID := 7 } : MigrationResource).action = "create" →
      ({ sourceID := 1, name := "X", rtype := "organizations",
         action := "skip_exists", destID := 7 } : MigrationResource).destID = 0) := by
  exact preflight_action_spec oneOrgData id7Dest "organizations" _ _
    (List.mem_singleton.mpr rfl) (List.mem_singleton.mpr rfl)

/-! ## Pagination (`platform.Client.GetAll`) -/

/-- The decoded `{count, next, results[]}` envelope (the unused `count` is
omitted; `next` is `nil` or a URL string). -/
structure GoPage where
  results : List Resource
  next : Option String

/-- One HTTP response to a page request: the status code, and the parsed
envelope (`none` when the body does not parse). -/
structure PageResp where
  status : Nat
  page : Option GoPage

/-- The relative-URL resolution inside the `GetAll` loop: a `next`
beginning with `/` is resolved against `baseURL`. -/
def resolveNext (baseURL nxt : String) : String :=
  match nxt.data with
  | '/' :: _ => baseURL ++ nxt
  | _ => nxt

/-- The page-following loop of `Client.GetAll`, with the remote server
modelled as the `fetch` oracle (`none` = transport error) and fuel, since
the Go loop's termination depends on the server's `next` chain being
finite. -/
def getAllAux (fetch : String → Option PageResp) (baseURL : String) :
    Nat → String → Except String (List Resource)
  | 0, url => .error ("GET " ++ url ++ ": non-terminating next chain")
  | fuel + 1, url =>
    match fetch url with
    | none => .error ("GET " ++ url)
    | some pr =>
      if pr.status < 200 ∨ 300 ≤ pr.status then
        .error ("GET " ++ url ++ ": HTTP " ++ toString pr.status)
      else
        match pr.page with
        | none => .error "parsing response"
        | some pg =>
          match pg.next with
          | some nxt =>
            if nxt = "" then .ok pg.results
            else
              match getAllAux fetch baseURL fuel (resolveNext baseURL nxt) with
              | .ok rest => .ok (pg.results ++ rest)
              | .error e => .error e
          | none => .ok pg.results

/-- `Client.GetAll`: start the loop at `baseURL + path`. -/
def GetAll (fetch : String → Option PageResp) (baseURL : String)
    (fuel : Nat) (path : String) : Except String (List Resource) :=
  getAllAux fetch baseURL fuel (baseURL ++ path)

/-- A finite chain of pages served by `fetch` starting at `url`: every
page answers 2xx and parses, each non-final page's `next` is nonempty and
leads (after relative resolution against `base`) to the next page, and
the final page's `next` is null or empty. -/
inductive Chain (fetch : String → Option PageResp) (base : String) :
    String → List GoPage → Prop
  | last (url : String) (st : Nat) (pg : GoPage) :
      fetch url = some ⟨st, some pg⟩ → 200 ≤ st → st < 300 →
      (pg.next = none ∨ pg.next = some "") →
      Chain fetch base url [pg]
  | step (url : String) (st : Nat) (pg : GoPage) (nxt : String) (pgs : List GoPage) :
      fetch url = some ⟨st, some pg⟩ → 200 ≤ st → st < 300 →
      pg.next = some nxt → nxt ≠ "" →
      Chain fetch base (resolveNext base nxt) pgs →
      Chain fetch base url (pg :: pgs)

/-- The loop's route to a request: `PageTrail fetch base start pgs url`
says the loop started at `start` reaches the request for `url` after
consuming the good pages `pgs` (each 2xx, parsed, with a nonempty `next`
resolved against `base`). `pgs = []` is the very first request. -/
inductive PageTrail (fetch : String → Option PageResp) (base : String) :
    String → List GoPage → String → Prop
  | refl (url : String) : PageTrail fetch base url [] url
  | step (url : String) (st : Nat) (pg : GoPage) (nxt : String)
      (pgs : List GoPage) (url' : String) :
      fetch url = some ⟨st, some pg⟩ → 200 ≤ st → st < 300 →
      pg.next = some nxt → nxt ≠ "" →
      PageTrail fetch base (resolveNext base nxt) pgs url' →
      PageTrail fetch base url (pg :: pgs) url'

theorem getAllAux_step (fetch : String → Option PageResp) (base : String)
    (fuel : Nat) (url : String) (pr : PageResp) (hf : fetch url = some pr) :
    getAllAux fetch base (fuel + 1) url =
      (if pr.status < 200 ∨ 300 ≤ pr.status then
        Except.error ("GET " ++ url ++ ": HTTP " ++ toString pr.status)
      else
        match pr.page with
        | none => Except.error "parsing response"
        | some pg =>
          match pg.next with
          | some nxt =>
            if nxt = "" then Except.ok pg.results
            else
              match getAllAux fetch base fuel (resolveNext base nxt) with
              | Except.ok rest => Except.ok (pg.results ++ rest)
              | Except.error e => Except.error e
          | none => Except.ok pg.results) := by
  conv_lhs => rw [getAllAux]
  rw [hf]

theorem getAllAux_chain (fetch : String → Option PageResp) (base : String)
    (url : String) (pgs : List GoPage) (hc : Chain fetch base url pgs) :
    ∀ fuel : Nat, pgs.length ≤ fuel →
      getAllAux fetch base fuel url = .ok (pgs.map GoPage.results).flatten := by
  induction hc with
  | last url st pg hf h2 h3 hnext =>
    intro fuel hfuel
    match fuel, hfuel with
    | f + 1, _ =>
      rw [getAllAux_step fetch base f url ⟨st, some pg⟩ hf,
        if_neg (by dsimp only; omega)]
      dsimp only
      rcases hnext with hn | hn <;> rw [hn] <;> simp
  | step url st pg nxt pgs hf h2 h3 hnext hne _hc ih =>
    intro fuel hfuel
    match fuel, hfuel with
    | f + 1, hfuel =>
      have hlen : pgs.length ≤ f := by
        simp only [List.length_cons] at hfuel
        omega
      rw [getAllAux_step fetch base f url ⟨st, some pg⟩ hf,
        if_neg (by dsimp only; omega)]
      dsimp only
      rw [hnext]
      dsimp only
      rw [if_neg hne, ih f hlen]
      simp

theorem getAllAux_trail_error (fetch : String → Option PageResp)
    (base : String) (start : String) (pgs : List GoPage) (url : String)
    (ht : PageTrail fetch base start pgs url) :
    ∀ fuel pr, fetch url = some pr → (pr.status < 200 ∨ 300 ≤ pr.status) →
      pgs.length < fuel →
      getAllAux fetch base fuel start =
        .error ("GET " ++ url ++ ": HTTP " ++ toString pr.status) := by
  induction ht with
  | refl u =>
    intro fuel pr hf hbad hfuel
    match fuel, hfuel with
    | f + 1, _ =>
      rw [getAllAux_step fetch base f u pr hf, if_pos hbad]
  | step u st pg nxt pgs url' hf h2 h3 hnext hne _ht ih =>
    intro fuel pr hfu hbad hfuel
    match fuel, hfuel with
    | f + 1, hfuel =>
      have hlen : pgs.length < f := by
        simp only [List.length_cons] at hfuel
        omega
      rw [getAllAux_step fetch base f u ⟨st, some pg⟩ hf,
        if_neg (by dsimp only; omega)]
      dsimp only
      rw [hnext]
      dsimp only
      rw [if_neg hne, ih f pr hfu hbad hlen]

/-- C6: `GetAll(path)` returns exactly the concatenation of the `results`
arrays of the pages reached from `baseURL + path`, following each page's
`next` (resolved against `baseURL` when it begins with `/`, as built into
`Chain` via `resolveNext`) until it is null or empty; and it returns an
error whenever any page the loop requests — the first one or any later
one reached along the `next` chain (`PageTrail`) — answers a non-2xx
status. -/
theorem getAll_pagination_spec (fetch : String → Option PageResp)
    (base path : String) :
    (∀ pgs fuel, Chain fetch base (base ++ path) pgs → pgs.length ≤ fuel →
      GetAll fetch base fuel path = .ok (pgs.map GoPage.results).flatten) ∧
    (∀ pgs url fuel pr, PageTrail fetch base (base ++ path) pgs url →
      fetch url = some pr → (pr.status < 200 ∨ 300 ≤ pr.status) →
      pgs.length < fuel →
      GetAll fetch base fuel path =
        .error ("GET " ++ url ++ ": HTTP " ++ toString pr.status)) := by
  constructor
  · intro pgs fuel hc hfuel
    exact getAllAux_chain fetch base (base ++ path) pgs hc fuel hfuel
  · intro pgs url fuel pr ht hf hbad hfuel
    exact getAllAux_trail_error fetch base (base ++ path) pgs url ht fuel pr
      hf hbad hfuel

/-- Two-page server for the pagination witness: page 1 carries a relative
`next`. -/
def wPage1 : GoPage :=
  { results := [[("id", Value.vnum 1), ("name", Value.vstr "A")]],
    next := some "/api/v2/orgs/?page=2" }

def wPage2 : GoPage :=
  { results := [[("id", Value.vnum 2), ("name", Value.vstr "B")]],
    next := none }

def wFetch : String → Option PageResp := fun url =>
  if url = "http://awx:80/api/v2/orgs/" then some ⟨200, some wPage1⟩
  else if url = "http://awx:80/api/v2/orgs/?page=2" then some ⟨200, some wPage2⟩
  else none

/-- The same server with the second page answering HTTP 500. -/
def wBadFetch : String → Option PageResp := fun url =>
  if url = "http://awx:80/api/v2/orgs/" then some ⟨200, some wPage1⟩
  else if url = "http://awx:80/api/v2/orgs/?page=2" then some ⟨500, none⟩
  else none

/-- Witness for C6: the two-page chain above (with a relative `next`)
concatenates in page order; and when the second page of the chain answers
HTTP 500, the whole call errors with that page's URL and status. -/
theorem getAll_pagination_spec_witness :
    (GetAll wFetch "http://awx:80" 2 "/api/v2/orgs/" =
      .ok [[("id", Value.vnum 1), ("name", Value.vstr "A")],
           [("id", Value.vnum 2), ("name", Value.vstr "B")]]) ∧
    (GetAll wBadFetch "http://awx:80" 2 "/api/v2/orgs/" =
      .error "GET http://awx:80/api/v2/orgs/?page=2: HTTP 500") := by
  constructor
  · exact (getAll_pagination_spec wFetch "http://awx:80" "/api/v2/orgs/").1
      [wPage1, wPage2] 2
      (Chain.step _ 200 wPage1 "/api/v2/orgs/?page=2" [wPage2]
        rfl (by omega) (by omega) rfl (by decide)
        (Chain.last _ 200 wPage2 rfl (by omega) (by omega) (Or.inl rfl)))
      (by decide)
  · exact (getAll_pagination_spec wBadFetch "http://awx:80" "/api/v2/orgs/").2
      [wPage1] "http://awx:80/api/v2/orgs/?page=2" 2 ⟨500, none⟩
      (PageTrail.step _ 200 wPage1 "/api/v2/orgs/?page=2" []
        "http://awx:80/api/v2/orgs/?page=2"
        rfl (by omega) (by omega) rfl (by decide)
        (PageTrail.refl _))
      rfl (Or.inr (by decide)) (by decide)

/-! ## Importer (`importAll`, part_005)

The importer is embedded as a state-passing function. The state carries
the `idMap`, the ordered list of observable events (every log line and
every POST issued to the destination), a counter of cancellation
observations, and `importAll`'s local variables (`srcInvNames`,
`srcHostNames`, `projectWaitList`). The destination is an oracle; the Go
context is modelled by `cancelAt`: the index of the first `ctx.Err()`
observation that reports cancellation (`none` = never cancelled). A
cancellation return is `Except.error` carrying the final state. Go map
iteration order over `data.Hosts`/`data.Groups` is fixed to list order. -/

/-- POST endpoints of the importer, one constructor per `fmt.Sprintf`
path pattern in part_005 (the `prefix` part is common to all). -/
inductive EP where
  | organizations
  | credentialTypes
  | users
  | teams
  | credentials
  | projects
  | inventories
  | invHosts (destInvID : Int)
  | invGroups (destInvID : Int)
  | groupHosts (destGroupID : Int)
  | jobTemplates
  | jtCredentials (jtID : Int)
  | jtSurvey (jtID : Int)
  | schedules (parentEndpoint : String) (parentID : Int)
  | workflowJTs
  | wfNodes (destWFID : Int)
  | nodeEdges (destNodeID : Int) (edgeType : String)
  | wfSurvey (destWFID : Int)
  | orgUsers (destOrgID : Int)
  | teamUsers (destTeamID : Int)
deriving Repr, DecidableEq

/-- An observable action of the importer: a log line or a POST with its
payload. GET/FindByName reads are answered by the oracle and not
recorded. -/
inductive Event where
  | elog (line : String)
  | epost (ep : EP) (payload : Value)
deriving Repr

/-- The destination control plane as seen by `importAll`:
`create` is `createResource` (POST then parse `id`), `findByName` the
idempotence lookup used for hosts and groups, `allCredTypes` the result
of the preloading `GetAll(prefix+"credential_types/")`, and `projStatus`
the project-sync status per poll iteration (`none` = request error). -/
structure Dest where
  create : EP → Value → Except String Int
  findByName : EP → String → Option Resource
  allCredTypes : List Resource
  projStatus : Int → Nat → Option String

/-- The parameters of one `importAll` call. -/
structure Cfg where
  dst : Dest
  dstType : String
  data : ExportedData
  preview : MigrationPreview
  exclude : List (String × List String)
  cancelAt : Option Nat

/-- Go `map[string]int` read with zero default. -/
def slook (m : List (String × Int)) (k : String) : Int :=
  ((m.find? (fun p => p.1 = k)).map (fun p => p.2)).getD 0

/-- Go `map[string]int` write (the most recent binding shadows). -/
def sset (m : List (String × Int)) (k : String) (v : Int) : List (String × Int) :=
  (k, v) :: m

/-- Go `map[string]int` read with presence bit (`v, ok := m[k]`). -/
def sfind (m : List (String × Int)) (k : String) : Option Int :=
  (m.find? (fun p => p.1 = k)).map (fun p => p.2)

/-- Go `map[int]int` read with zero default. -/
def ilook (m : List (Int × Int)) (k : Int) : Int :=
  ((m.find? (fun p => p.1 = k)).map (fun p => p.2)).getD 0

def iset (m : List (Int × Int)) (k v : Int) : List (Int × Int) :=
  (k, v) :: m

/-- Go `map[int]string` read with empty default (`srcInvNames` etc.). -/
def islook (m : List (Int × String)) (k : Int) : String :=
  ((m.find? (fun p => p.1 = k)).map (fun p => p.2)).getD ""

/-- Go `map[int][]T` read with nil default. -/
def aget {α : Type} (m : List (Int × α)) (k : Int) (d : α) : α :=
  ((m.find? (fun p => p.1 = k)).map (fun p => p.2)).getD d

/-- `migration.idMap`. -/
structure IdMap where
  orgs : List (String × Int)
  teams : List (String × Int)
  users : List (String × Int)
  credTypes : List (String × Int)
  creds : List (String × Int)
  projects : List (String × Int)
  invs : List (String × Int)
  hosts : List (String × Int)
  groups : List (String × Int)
  jts : List (String × Int)
  wfjts : List (String × Int)
  credTypeByID : List (Int × Int)
  nodes : List (Int × Int)

/-- `migration.newIDMap`. -/
def newIDMap : IdMap :=
  { orgs := [], teams := [], users := [], credTypes := [], creds := [],
    projects := [], invs := [], hosts := [], groups := [], jts := [],
    wfjts := [], credTypeByID := [], nodes := [] }

/-- `migration.actionFor`: first preview row with the given name, else
`("create", 0)`. -/
def actionFor (preview : MigrationPreview) (typeName name : String) : String × Int :=
  match (((preview.resources.find? (fun p => p.1 = typeName)).map
      (fun p => p.2)).getD []).find? (fun mr => mr.name = name) with
  | some mr => (mr.action, mr.destID)
  | none => ("create", 0)

/-- `migration.isExcluded`. -/
def isExcluded (exclude : List (String × List String)) (typeName name : String) : Bool :=
  match exclude.find? (fun p => p.1 = typeName) with
  | none => false
  | some p => p.2.contains name

/-- The running state of `importAll`. -/
structure St where
  ids : IdMap
  evs : List Event
  chk : Nat
  srcInvNames : List (Int × String)
  srcHostNames : List (Int × String)
  projWait : List (String × Int)

def initSt : St :=
  { ids := newIDMap, evs := [], chk := 0, srcInvNames := [],
    srcHostNames := [], projWait := [] }

/-- Record an observable event. -/
def emit (s : St) (e : Event) : St := { s with evs := s.evs ++ [e] }

/-- Whether the `ctx.Err()` observation number `chk` reports
cancellation. -/
def ctxCancelled (cancelAt : Option Nat) (chk : Nat) : Bool :=
  match cancelAt with
  | none => false
  | some n => decide (n ≤ chk)

/-- `if ctx.Err() != nil { logger("Migration cancelled by user"); return ctx.Err() }` -/
def checkCancel (cancelAt : Option Nat) (s : St) : Except St St :=
  if ctxCancelled cancelAt s.chk then
    .error (emit { s with chk := s.chk + 1 } (.elog "Migration cancelled by user"))
  else .ok { s with chk := s.chk + 1 }

/-- Short-circuiting loop for per-item bodies that observe cancellation. -/
def foldE {α : Type} (f : St → α → Except St St) : St → List α → Except St St
  | s, [] => .ok s
  | s, x :: xs =>
    match f s x with
    | .error e => .error e
    | .ok s' => foldE f s' xs

/-- Preload of destination credential-type names (`GetAll` result folded
into `ids.credTypes`). -/
def phasePreload (cfg : Cfg) (s : St) : St :=
  let m := cfg.dst.allCredTypes.foldl
    (fun m ct => sset m (resourceName ct) (resourceID ct)) s.ids.credTypes
  { s with ids := { s.ids with credTypes := m } }

/-- Step 1 body: one organization. -/
def orgItem (cfg : Cfg) (s : St) (org : Resource) : St :=
  let name := resourceName org
  if isExcluded cfg.exclude "organizations" name then
    emit s (.elog ("  EXCLUDED: " ++ name ++ " (user exclusion)"))
  else if (actionFor cfg.preview "organizations" name).1 ≠ "create" then
    let m := sset s.ids.orgs name (actionFor cfg.preview "organizations" name).2
    emit { s with ids := { s.ids with orgs := m } }
      (.elog ("  SKIP (exists): " ++ name))
  else
    let payload := Value.vobj
      [("name", Value.vstr name),
       ("description", Value.vstr (stringField org "description"))]
    let s := emit s (.epost .organizations payload)
    match cfg.dst.create .organizations payload with
    | .error e => emit s (.elog ("  FAIL: " ++ name ++ ": " ++ e))
    | .ok id =>
      emit { s with ids := { s.ids with orgs := sset s.ids.orgs name id } }
        (.elog ("  CREATED: " ++ name ++ " (ID " ++ toString id ++ ")"))

def phaseOrgs (cfg : Cfg) (s : St) : Except St St :=
  match checkCancel cfg.cancelAt s with
  | .error e => .error e
  | .ok s =>
    let s := emit s (.elog "=== Importing organizations ===")
    .ok (cfg.data.organizations.foldl (orgItem cfg) s)

/-- Step 2 body: one custom credential type. -/
def credTypeItem (cfg : Cfg) (s : St) (ct : Resource) : St :=
  let name := resourceName ct
  if isExcluded cfg.exclude "credential_types" name then
    emit s (.elog ("  EXCLUDED: " ++ name ++ " (user exclusion)"))
  else if (actionFor cfg.preview "credential_types" name).1 ≠ "create" then
    let m1 := sset s.ids.credTypes name (actionFor cfg.preview "credential_types" name).2
    let m2 := iset s.ids.credTypeByID (resourceID ct)
      (actionFor cfg.preview "credential_types" name).2
    emit { s with ids := { s.ids with credTypes := m1, credTypeByID := m2 } }
      (.elog ("  SKIP (exists): " ++ name))
  else
    let payload := Value.vobj
      [("name", Value.vstr name),
       ("description", Value.vstr (stringField ct "description")),
       ("kind", Value.vstr (stringField ct "kind")),
       ("inputs", rlook ct "inputs"),
       ("injectors", rlook ct "injectors")]
    let s := emit s (.epost .credentialTypes payload)
    match cfg.dst.create .credentialTypes payload with
    | .error e => emit s (.elog ("  FAIL: " ++ name ++ ": " ++ e))
    | .ok id =>
      let m1 := sset s.ids.credTypes name id
      let m2 := iset s.ids.credTypeByID (resourceID ct) id
      emit { s with ids := { s.ids with credTypes := m1, credTypeByID := m2 } }
        (.elog ("  CREATED: " ++ name ++ " (ID " ++ toString id ++ ")"))

def phaseCredTypes (cfg : Cfg) (s : St) : Except St St :=
  match checkCancel cfg.cancelAt s with
  | .error e => .error e
  | .ok s =>
    let s := emit (emit s (.elog "")) (.elog "=== Importing credential types ===")
    .ok (cfg.data.credentialTypes.foldl (credTypeItem cfg) s)

/-- Step 3 body: one user (natural key `username`). -/
def userItem (cfg : Cfg) (s : St) (user : Resource) : St :=
  let name := stringField user "username"
  if isExcluded cfg.exclude "users" name then
    emit s (.elog ("  EXCLUDED: " ++ name ++ " (user exclusion)"))
  else if (actionFor cfg.preview "users" name).1 ≠ "create" then
    let m := sset s.ids.users name (actionFor cfg.preview "users" name).2
    emit { s with ids := { s.ids with users := m } }
      (.elog ("  SKIP (exists): " ++ name))
  else
    let payload := Value.vobj
      [("username", Value.vstr name),
       ("first_name", Value.vstr (stringField user "first_name")),
       ("last_name", Value.vstr (stringField user "last_name")),
       ("email", Value.vstr (stringField user "email")),
       ("is_superuser", Value.vbool false),
       ("password", Value.vstr "changeme!")]
    let s := emit s (.epost .users payload)
    match cfg.dst.create .users payload with
    | .error e => emit s (.elog ("  FAIL: " ++ name ++ ": " ++ e))
    | .ok id =>
      emit { s with ids := { s.ids with users := sset s.ids.users name id } }
        (.elog ("  CREATED: " ++ name ++ " (ID " ++ toString id ++ ")"))

def phaseUsers (cfg : Cfg) (s : St) : Except St St :=
  match checkCancel cfg.cancelAt s with
  | .error e => .error e
  | .ok s =>
    let s := emit (emit s (.elog "")) (.elog "=== Importing users ===")
    .ok (cfg.data.users.foldl (userItem cfg) s)

/-- Step 4 body: one team (resolves its organization by name). -/
def teamItem (cfg : Cfg) (s : St) (team : Resource) : St :=
  let name := resourceName team
  if isExcluded cfg.exclude "teams" name then
    emit s (.elog ("  EXCLUDED: " ++ name ++ " (user exclusion)"))
  else if (actionFor cfg.preview "teams" name).1 ≠ "create" then
    let m := sset s.ids.teams name (actionFor cfg.preview "teams" name).2
    emit { s with ids := { s.ids with teams := m } }
      (.elog ("  SKIP (exists): " ++ name))
  else
    let orgName := extractOrgName team
    let orgID := slook s.ids.orgs orgName
    if orgID = 0 then
      emit s (.elog ("  SKIP: " ++ name ++ " (org \"" ++ orgName ++ "\" not found)"))
    else
      let payload := Value.vobj
        [("name", Value.vstr name),
         ("description", Value.vstr (stringField team "description")),
         ("organization", Value.vnum orgID)]
      let s := emit s (.epost .teams payload)
      match cfg.dst.create .teams payload with
      | .error e => emit s (.elog ("  FAIL: " ++ name ++ ": " ++ e))
      | .ok id =>
        emit { s with ids := { s.ids with teams := sset s.ids.teams name id } }
          (.elog ("  CREATED: " ++ name ++ " (ID " ++ toString id ++ ")"))

def phaseTeams (cfg : Cfg) (s : St) : Except St St :=
  match checkCancel cfg.cancelAt s with
  | .error e => .error e
  | .ok s =>
    let s := emit (emit s (.elog "")) (.elog "=== Importing teams ===")
    .ok (cfg.data.teams.foldl (teamItem cfg) s)

/-- Step 5 body: one credential — the type is resolved by source ID
first, then by name; the POSTed `inputs` is always the empty mapping. -/
def credItem (cfg : Cfg) (s : St) (cred : Resource) : St :=
  let name := resourceName cred
  if isExcluded cfg.exclude "credentials" name then
    emit s (.elog ("  EXCLUDED: " ++ name ++ " (user exclusion)"))
  else if (actionFor cfg.preview "credentials" name).1 ≠ "create" then
    let m := sset s.ids.creds name (actionFor cfg.preview "credentials" name).2
    emit { s with ids := { s.ids with creds := m } }
      (.elog ("  SKIP (exists): " ++ name))
  else
    let orgID := slook s.ids.orgs (extractOrgName cred)
    let destCtID :=
      if ilook s.ids.credTypeByID (intField cred "credential_type") ≠ 0 then
        ilook s.ids.credTypeByID (intField cred "credential_type")
      else slook s.ids.credTypes (extractCredTypeName cred)
    if destCtID = 0 then
      emit s (.elog ("  SKIP: " ++ name ++ " (credential type not found)"))
    else
      let payload := Value.vobj
        [("name", Value.vstr name),
         ("description", Value.vstr (stringField cred "description")),
         ("organization", Value.vnum orgID),
         ("credential_type", Value.vnum destCtID),
         ("inputs", Value.vobj [])]
      let s := emit s (.epost .credentials payload)
      match cfg.dst.create .credentials payload with
      | .error e => emit s (.elog ("  FAIL: " ++ name ++ ": " ++ e))
      | .ok id =>
        emit { s with ids := { s.ids with creds := sset s.ids.creds name id } }
          (.elog ("  CREATED: " ++ name ++ " (ID " ++ toString id ++
            ") [inputs empty — set secrets manually]"))

def phaseCreds (cfg : Cfg) (s : St) : Except St St :=
  match checkCancel cfg.cancelAt s with
  | .error e => .error e
  | .ok s =>
    let s := emit (emit s (.elog "")) (.elog "=== Importing credentials ===")
    .ok (cfg.data.credentials.foldl (credItem cfg) s)

/-- Step 6 body: one project (newly created projects are collected in the
wait list). -/
def projItem (cfg : Cfg) (s : St) (proj : Resource) : St :=
  let name := resourceName proj
  if isExcluded cfg.exclude "projects" name then
    emit s (.elog ("  EXCLUDED: " ++ name ++ " (user exclusion)"))
  else if (actionFor cfg.preview "projects" name).1 ≠ "create" then
    let m := sset s.ids.projects name (actionFor cfg.preview "projects" name).2
    emit { s with ids := { s.ids with projects := m } }
      (.elog ("  SKIP (exists): " ++ name))
  else
    let orgID := slook s.ids.orgs (extractOrgName proj)
    let base :=
      [("name", Value.vstr name),
       ("description", Value.vstr (stringField proj "description")),
       ("organization", Value.vnum orgID),
       ("scm_type", Value.vstr (stringField proj "scm_type")),
       ("scm_url", Value.vstr (stringField proj "scm_url")),
       ("scm_branch", Value.vstr (stringField proj "scm_branch")),
       ("scm_clean", rlook proj "scm_clean"),
       ("scm_delete_on_update", rlook proj "scm_delete_on_update"),
       ("scm_track_submodules", rlook proj "scm_track_submodules"),
       ("scm_update_on_launch", rlook proj "scm_update_on_launch"),
       ("scm_update_cache_timeout", rlook proj "scm_update_cache_timeout")]
    let scmCredName := extractSCMCredName proj
    let payload := Value.vobj
      (if scmCredName ≠ "" ∧ slook s.ids.creds scmCredName ≠ 0 then
        base ++ [("credential", Value.vnum (slook s.ids.creds scmCredName))]
      else base)
    let s := emit s (.epost .projects payload)
    match cfg.dst.create .projects payload with
    | .error e => emit s (.elog ("  FAIL: " ++ name ++ ": " ++ e))
    | .ok id =>
      let m := sset s.ids.projects name id
      let s := emit { s with ids := { s.ids with projects := m } }
        (.elog ("  CREATED: " ++ name ++ " (ID " ++ toString id ++ ")"))
      { s with projWait := s.projWait ++ [(name, id)] }

def phaseProjects (cfg : Cfg) (s : St) : Except St St :=
  match checkCancel cfg.cancelAt s with
  | .error e => .error e
  | .ok s =>
    let s := emit (emit s (.elog "")) (.elog "=== Importing projects ===")
    .ok (cfg.data.projects.foldl (projItem cfg) s)

/-- Number of 3-second polls within the 120-second per-project deadline of
`waitForProjectCtx` (real time is abstracted into poll fuel). -/
def waitFuel : Nat := 40

/-- `waitForProjectCtx`: polls the project status, observing cancellation
at the loop head and in the `select` around the 3-second sleep. Returns
the updated observation counter and the outcome. -/
def waitLoop (cancelAt : Option Nat) (projStatus : Int → Nat → Option String)
    (projID : Int) : Nat → Nat → Nat → Nat × Except String Unit
  | _, 0, chk => (chk, .error "timeout waiting for project sync")
  | iter, fuel + 1, chk =>
    if ctxCancelled cancelAt chk then (chk + 1, .error "context canceled")
    else
      match projStatus projID iter with
      | none => (chk + 1, .error "GET project failed")
      | some st =>
        if st = "successful" then (chk + 1, .ok ())
        else if st = "failed" ∨ st = "error" ∨ st = "canceled" then
          (chk + 1, .error ("project sync status: " ++ st))
        else if ctxCancelled cancelAt (chk + 1) then (chk + 2, .error "context canceled")
        else waitLoop cancelAt projStatus projID (iter + 1) fuel (chk + 2)

/-- The per-project body of the wait block: the loop-head `ctx.Err()`
check, then the wait; wait failures (cancellation included) are logged as
warnings and the loop advances. -/
def waitProjItem (cfg : Cfg) (s : St) (pw : String × Int) : Except St St :=
  match checkCancel cfg.cancelAt s with
  | .error e => .error e
  | .ok s =>
    match waitLoop cfg.cancelAt cfg.dst.projStatus pw.2 0 waitFuel s.chk with
    | (chk', .ok _) =>
      .ok (emit { s with chk := chk' } (.elog ("  Project " ++ pw.1 ++ " sync complete")))
    | (chk', .error e) =>
      .ok (emit { s with chk := chk' }
        (.elog ("  WARNING: project " ++ pw.1 ++ " sync: " ++ e)))

/-- The "wait for project syncs" block (only on an `aap` destination with
a nonempty wait list). -/
def phaseWait (cfg : Cfg) (s : St) : Except St St :=
  if cfg.dstType = "aap" ∧ s.projWait ≠ [] then
    foldE (waitProjItem cfg) (emit s (.elog "  Waiting for project syncs...")) s.projWait
  else .ok s

/-- Step 7 body: one inventory (`srcInvNames` is recorded before the
exclusion check, as in the source). -/
def invItem (cfg : Cfg) (s : St) (inv : Resource) : St :=
  let name := resourceName inv
  let s := { s with srcInvNames := (resourceID inv, name) :: s.srcInvNames }
  if isExcluded cfg.exclude "inventories" name then
    emit s (.elog ("  EXCLUDED: " ++ name ++ " (user exclusion)"))
  else if (actionFor cfg.preview "inventories" name).1 ≠ "create" then
    let m := sset s.ids.invs name (actionFor cfg.preview "inventories" name).2
    emit { s with ids := { s.ids with invs := m } }
      (.elog ("  SKIP (exists): " ++ name))
  else
    let orgID := slook s.ids.orgs (extractOrgName inv)
    let payload := Value.vobj
      [("name", Value.vstr name),
       ("description", Value.vstr (stringField inv "description")),
       ("organization", Value.vnum orgID),
       ("variables", Value.vstr (stringField inv "variables"))]
    let s := emit s (.epost .inventories payload)
    match cfg.dst.create .inventories payload with
    | .error e => emit s (.elog ("  FAIL: " ++ name ++ ": " ++ e))
    | .ok id =>
      let m := sset s.ids.invs name id
      emit { s with ids := { s.ids with invs := m } }
        (.elog ("  CREATED: " ++ name ++ " (ID " ++ toString id ++ ")"))

def phaseInvs (cfg : Cfg) (s : St) : Except St St :=
  match checkCancel cfg.cancelAt s with
  | .error e => .error e
  | .ok s =>
    let s := emit (emit s (.elog "")) (.elog "=== Importing inventories ===")
    .ok (cfg.data.inventories.foldl (invItem cfg) s)

/-- Step 8 inner body: one host (cancellation is observed per host). -/
def hostItem (cfg : Cfg) (invName : String) (destInvID : Int)
    (s : St) (host : Resource) : Except St St :=
  match checkCancel cfg.cancelAt s with
  | .error e => .error e
  | .ok s =>
    let name := resourceName host
    let s := { s with srcHostNames := (resourceID host, name) :: s.srcHostNames }
    let key := invName ++ "/" ++ name
    if isExcluded cfg.exclude "hosts" name then
      .ok (emit s (.elog ("  EXCLUDED: " ++ invName ++ "/" ++ name ++ " (user exclusion)")))
    else
      match cfg.dst.findByName (.invHosts destInvID) name with
      | some existing =>
        let m := sset s.ids.hosts key (resourceID existing)
        .ok { s with ids := { s.ids with hosts := m } }
      | none =>
        let payload := Value.vobj
          [("name", Value.vstr name),
           ("description", Value.vstr (stringField host "description")),
           ("variables", Value.vstr (stringField host "variables")),
           ("enabled", rlook host "enabled")]
        let s := emit s (.epost (.invHosts destInvID) payload)
        match cfg.dst.create (.invHosts destInvID) payload with
        | .error e =>
          .ok (emit s (.elog ("  FAIL: " ++ invName ++ "/" ++ name ++ ": " ++ e)))
        | .ok id =>
          let m := sset s.ids.hosts key id
          .ok { s with ids := { s.ids with hosts := m } }

/-- Step 8 outer body: the hosts of one source inventory. -/
def hostInvItem (cfg : Cfg) (s : St) (entry : Int × List Resource) : Except St St :=
  let invName := islook s.srcInvNames entry.1
  let destInvID := slook s.ids.invs invName
  if destInvID = 0 then .ok s
  else if isExcluded cfg.exclude "inventories" invName then
    let s := emit s (.elog ("  EXCLUDED: " ++ invName ++ " (inventory excluded)"))
    .ok { s with srcHostNames :=
      entry.2.foldl (fun m h => (resourceID h, resourceName h) :: m) s.srcHostNames }
  else
    match foldE (hostItem cfg invName destInvID) s entry.2 with
    | .error e => .error e
    | .ok s =>
      .ok (emit s (.elog ("  " ++ invName ++ ": " ++ toString entry.2.length ++ " hosts")))

def phaseHosts (cfg : Cfg) (s : St) : Except St St :=
  match checkCancel cfg.cancelAt s with
  | .error e => .error e
  | .ok s =>
    let s := emit (emit s (.elog "")) (.elog "=== Importing hosts ===")
    foldE (hostInvItem cfg) s cfg.data.hosts

/-- Step 9 inner body: one group (create-or-adopt, then group-host
association POSTs whose errors the source ignores). -/
def groupItem (cfg : Cfg) (invName : String) (destInvID : Int)
    (s : St) (group : Resource) : Except St St :=
  match checkCancel cfg.cancelAt s with
  | .error e => .error e
  | .ok s =>
    let name := resourceName group
    let key := invName ++ "/" ++ name
    let srcGroupID := resourceID group
    let assoc := fun (s : St) (destGroupID : Int) =>
      (aget cfg.data.groupHosts srcGroupID []).foldl (fun (s : St) srcHostID =>
        let hostKey := invName ++ "/" ++ islook s.srcHostNames srcHostID
        match sfind s.ids.hosts hostKey with
        | some destHostID =>
          emit s (.epost (.groupHosts destGroupID) (Value.vobj [("id", Value.vnum destHostID)]))
        | none => s) s
    match cfg.dst.findByName (.invGroups destInvID) name with
    | some existing =>
      let m := sset s.ids.groups key (resourceID existing)
      .ok (assoc { s with ids := { s.ids with groups := m } } (resourceID existing))
    | none =>
      let payload := Value.vobj
        [("name", Value.vstr name),
         ("description", Value.vstr (stringField group "description")),
         ("variables", Value.vstr (stringField group "variables"))]
      let s := emit s (.epost (.invGroups destInvID) payload)
      match cfg.dst.create (.invGroups destInvID) payload with
      | .error e =>
        .ok (emit s (.elog ("  FAIL: " ++ invName ++ "/" ++ name ++ ": " ++ e)))
      | .ok id =>
        let m := sset s.ids.groups key id
        .ok (assoc { s with ids := { s.ids with groups := m } } id)

/-- Step 9 outer body: the groups of one source inventory (inventories
that were not created and excluded inventories are skipped silently). -/
def groupInvItem (cfg : Cfg) (s : St) (entry : Int × List Resource) : Except St St :=
  let invName := islook s.srcInvNames entry.1
  let destInvID := slook s.ids.invs invName
  if destInvID = 0 then .ok s
  else if isExcluded cfg.exclude "inventories" invName then .ok s
  else
    match foldE (groupItem cfg invName destInvID) s entry.2 with
    | .error e => .error e
    | .ok s =>
      .ok (emit s (.elog ("  " ++ invName ++ ": " ++ toString entry.2.length ++ " groups")))

def phaseGroups (cfg : Cfg) (s : St) : Except St St :=
  match checkCancel cfg.cancelAt s with
  | .error e => .error e
  | .ok s =>
    let s := emit (emit s (.elog "")) (.elog "=== Importing groups ===")
    foldE (groupInvItem cfg) s cfg.data.groups

/-- Step 10 body: one job template — the pass-through payload, then
credential associations and survey import for the created template. -/
def jtItem (cfg : Cfg) (s : St) (jt : Resource) : St :=
  let name := resourceName jt
  if isExcluded cfg.exclude "job_templates" name then
    emit s (.elog ("  EXCLUDED: " ++ name ++ " (user exclusion)"))
  else if (actionFor cfg.preview "job_templates" name).1 ≠ "create" then
    let m := sset s.ids.jts name (actionFor cfg.preview "job_templates" name).2
    emit { s with ids := { s.ids with jts := m } }
      (.elog ("  SKIP (exists): " ++ name))
  else
    let base :=
      [("name", Value.vstr name),
       ("description", Value.vstr (stringField jt "description")),
       ("job_type", Value.vstr (stringField jt "job_type")),
       ("playbook", Value.vstr (stringField jt "playbook")),
       ("forks", rlook jt "forks"),
       ("limit", Value.vstr (stringField jt "limit")),
       ("verbosity", rlook jt "verbosity"),
       ("extra_vars", Value.vstr (stringField jt "extra_vars")),
       ("ask_variables_on_launch", rlook jt "ask_variables_on_launch"),
       ("ask_limit_on_launch", rlook jt "ask_limit_on_launch"),
       ("ask_tags_on_launch", rlook jt "ask_tags_on_launch"),
       ("ask_diff_mode_on_launch", rlook jt "ask_diff_mode_on_launch"),
       ("ask_skip_tags_on_launch", rlook jt "ask_skip_tags_on_launch"),
       ("ask_job_type_on_launch", rlook jt "ask_job_type_on_launch"),
       ("ask_credential_on_launch", rlook jt "ask_credential_on_launch"),
       ("ask_verbosity_on_launch", rlook jt "ask_verbosity_on_launch"),
       ("ask_inventory_on_launch", rlook jt "ask_inventory_on_launch"),
       ("ask_scm_branch_on_launch", rlook jt "ask_scm_branch_on_launch"),
       ("ask_execution_environment_on_launch", rlook jt "ask_execution_environment_on_launch"),
       ("ask_labels_on_launch", rlook jt "ask_labels_on_launch"),
       ("ask_forks_on_launch", rlook jt "ask_forks_on_launch"),
       ("ask_job_slice_count_on_launch", rlook jt "ask_job_slice_count_on_launch"),
       ("ask_timeout_on_launch", rlook jt "ask_timeout_on_launch"),
       ("survey_enabled", rlook jt "survey_enabled"),
       ("become_enabled", rlook jt "become_enabled"),
       ("diff_mode", rlook jt "diff_mode"),
       ("allow_simultaneous", rlook jt "allow_simultaneous"),
       ("job_slice_count", rlook jt "job_slice_count"),
       ("timeout", rlook jt "timeout"),
       ("use_fact_cache", rlook jt "use_fact_cache"),
       ("host_config_key", Value.vstr (stringField jt "host_config_key")),
       ("scm_branch", Value.vstr (stringField jt "scm_branch"))]
    let projID := slook s.ids.projects (extractProjectName jt)
    let invID := slook s.ids.invs (extractInventoryName jt)
    let withProj := if projID ≠ 0 then base ++ [("project", Value.vnum projID)] else base
    let payload := Value.vobj
      (if invID ≠ 0 then withProj ++ [("inventory", Value.vnum invID)] else withProj)
    let s := emit s (.epost .jobTemplates payload)
    match cfg.dst.create .jobTemplates payload with
    | .error e => emit s (.elog ("  FAIL: " ++ name ++ ": " ++ e))
    | .ok id =>
      let m := sset s.ids.jts name id
      let s := emit { s with ids := { s.ids with jts := m } }
        (.elog ("  CREATED: " ++ name ++ " (ID " ++ toString id ++ ")"))
      let s := (extractCredentialNames jt).foldl (fun (s : St) credName =>
        if slook s.ids.creds credName ≠ 0 then
          emit s (.epost (.jtCredentials id)
            (Value.vobj [("id", Value.vnum (slook s.ids.creds credName))]))
        else s) s
      match (cfg.data.surveys.find? (fun p => p.1 = resourceID jt)) with
      | some p => emit s (.epost (.jtSurvey id) (Value.vobj p.2))
      | none => s

def phaseJTs (cfg : Cfg) (s : St) : Except St St :=
  match checkCancel cfg.cancelAt s with
  | .error e => .error e
  | .ok s =>
    let s := emit (emit s (.elog "")) (.elog "=== Importing job templates ===")
    .ok (cfg.data.jobTemplates.foldl (jtItem cfg) s)

/-- Step 11 body: one schedule — the parent is resolved through
`ids.jts` first, then `ids.wfjts`. -/
def schedItem (cfg : Cfg) (s : St) (sched : Resource) : St :=
  let name := resourceName sched
  if isExcluded cfg.exclude "schedules" name then
    emit s (.elog ("  EXCLUDED: " ++ name ++ " (user exclusion)"))
  else
    let parentName := extractUnifiedJTName sched
    let destParentID :=
      if slook s.ids.jts parentName ≠ 0 then slook s.ids.jts parentName
      else slook s.ids.wfjts parentName
    if destParentID = 0 then
      emit s (.elog ("  SKIP: " ++ name ++ " (parent \"" ++ parentName ++ "\" not found)"))
    else
      let parentEndpoint :=
        if slook s.ids.wfjts parentName ≠ 0 then "workflow_job_templates"
        else "job_templates"
      let payload := Value.vobj
        [("name", Value.vstr name),
         ("rrule", Value.vstr (stringField sched "rrule"))]
      let s := emit s (.epost (.schedules parentEndpoint destParentID) payload)
      match cfg.dst.create (.schedules parentEndpoint destParentID) payload with
      | .error e => emit s (.elog ("  FAIL: " ++ name ++ ": " ++ e))
      | .ok _ => emit s (.elog ("  CREATED: " ++ name))

def phaseSchedules (cfg : Cfg) (s : St) : Except St St :=
  match checkCancel cfg.cancelAt s with
  | .error e => .error e
  | .ok s =>
    let s := emit (emit s (.elog "")) (.elog "=== Importing schedules ===")
    .ok (cfg.data.schedules.foldl (schedItem cfg) s)

/-- Step 12 body: one workflow job template. -/
def wfItem (cfg : Cfg) (s : St) (wf : Resource) : St :=
  let name := resourceName wf
  if isExcluded cfg.exclude "workflow_job_templates" name then
    emit s (.elog ("  EXCLUDED: " ++ name ++ " (user exclusion)"))
  else if (actionFor cfg.preview "workflow_job_templates" name).1 ≠ "create" then
    let m := sset s.ids.wfjts name (actionFor cfg.preview "workflow_job_templates" name).2
    emit { s with ids := { s.ids with wfjts := m } }
      (.elog ("  SKIP (exists): " ++ name))
  else
    let orgID := slook s.ids.orgs (extractOrgName wf)
    let payload := Value.vobj
      [("name", Value.vstr name),
       ("description", Value.vstr (stringField wf "description")),
       ("organization", Value.vnum orgID),
       ("survey_enabled", rlook wf "survey_enabled"),
       ("allow_simultaneous", rlook wf "allow_simultaneous"),
       ("ask_variables_on_launch", rlook wf "ask_variables_on_launch"),
       ("ask_inventory_on_launch", rlook wf "ask_inventory_on_launch"),
       ("ask_scm_branch_on_launch", rlook wf "ask_scm_branch_on_launch"),
       ("ask_limit_on_launch", rlook wf "ask_limit_on_launch"),
       ("ask_labels_on_launch", rlook wf "ask_labels_on_launch"),
       ("extra_vars", Value.vstr (stringField wf "extra_vars")),
       ("limit", Value.vstr (stringField wf "limit")),
       ("scm_branch", Value.vstr (stringField wf "scm_branch"))]
    let s := emit s (.epost .workflowJTs payload)
    match cfg.dst.create .workflowJTs payload with
    | .error e => emit s (.elog ("  FAIL: " ++ name ++ ": " ++ e))
    | .ok id =>
      let m := sset s.ids.wfjts name id
      emit { s with ids := { s.ids with wfjts := m } }
        (.elog ("  CREATED: " ++ name ++ " (ID " ++ toString id ++ ")"))

def phaseWFJTs (cfg : Cfg) (s : St) : Except St St :=
  match checkCancel cfg.cancelAt s with
  | .error e => .error e
  | .ok s =>
    let s := emit (emit s (.elog "")) (.elog "=== Importing workflow job templates ===")
    .ok (cfg.data.workflowJTs.foldl (wfItem cfg) s)

/-- Step 13, pass 1: create one workflow node. -/
def nodeCreateItem (cfg : Cfg) (destWFID : Int) (s : St) (node : Resource) : St :=
  let ujtName := extractUnifiedJTName node
  let destUJTID :=
    if slook s.ids.jts ujtName ≠ 0 then slook s.ids.jts ujtName
    else slook s.ids.wfjts ujtName
  if destUJTID = 0 then
    emit s (.elog ("  SKIP node: unified_job_template \"" ++ ujtName ++ "\" not found"))
  else
    let payload := Value.vobj [("unified_job_template", Value.vnum destUJTID)]
    let s := emit s (.epost (.wfNodes destWFID) payload)
    match cfg.dst.create (.wfNodes destWFID) payload with
    | .error e => emit s (.elog ("  FAIL node for " ++ ujtName ++ ": " ++ e))
    | .ok nodeID =>
      { s with ids := { s.ids with nodes := iset s.ids.nodes (resourceID node) nodeID } }

/-- `migration.wireEdges` for one edge list. -/
def wireEdges (destNodeID : Int) (node : Resource) (edgeType : String) (s : St) : St :=
  match (rlook node edgeType).asArr with
  | none => s
  | some edges =>
    edges.foldl (fun (s : St) e =>
      let srcTargetID := toInt e
      if ilook s.ids.nodes srcTargetID ≠ 0 then
        emit s (.epost (.nodeEdges destNodeID edgeType)
          (Value.vobj [("id", Value.vnum (ilook s.ids.nodes srcTargetID))]))
      else s) s

/-- Step 13, pass 2: wire one node's edges. -/
def nodeEdgeItem (s : St) (node : Resource) : St :=
  let destNodeID := ilook s.ids.nodes (resourceID node)
  if destNodeID = 0 then s
  else
    wireEdges destNodeID node "always_nodes"
      (wireEdges destNodeID node "failure_nodes"
        (wireEdges destNodeID node "success_nodes" s))

/-- Step 13 body: both passes over one workflow's nodes, the count line,
and the workflow's survey. -/
def wfNodesItem (cfg : Cfg) (s : St) (wf : Resource) : St :=
  let wfName := resourceName wf
  let srcWFID := resourceID wf
  let destWFID := slook s.ids.wfjts wfName
  if destWFID = 0 then s
  else
    let nodes := aget cfg.data.workflowNodes srcWFID []
    if nodes.isEmpty then s
    else
      let s := nodes.foldl (nodeCreateItem cfg destWFID) s
      let s := nodes.foldl nodeEdgeItem s
      let s := emit s (.elog ("  Workflow " ++ wfName ++ ": " ++ toString nodes.length ++ " nodes"))
      match (cfg.data.surveys.find? (fun p => p.1 = srcWFID)) with
      | some p => emit s (.epost (.wfSurvey destWFID) (Value.vobj p.2))
      | none => s

def phaseNodes (cfg : Cfg) (s : St) : Except St St :=
  match checkCancel cfg.cancelAt s with
  | .error e => .error e
  | .ok s =>
    let s := emit (emit s (.elog "")) (.elog "=== Importing workflow nodes ===")
    .ok (cfg.data.workflowJTs.foldl (wfNodesItem cfg) s)

/-- Step 14 body: one organization's user associations. -/
def orgUserItem (cfg : Cfg) (s : St) (org : Resource) : St :=
  let srcOrgID := resourceID org
  let orgName := resourceName org
  let destOrgID := slook s.ids.orgs orgName
  if destOrgID = 0 then s
  else
    let usernames := aget cfg.data.orgUsers srcOrgID []
    let s := usernames.foldl (fun (s : St) username =>
      if slook s.ids.users username ≠ 0 then
        emit s (.epost (.orgUsers destOrgID)
          (Value.vobj [("id", Value.vnum (slook s.ids.users username))]))
      else s) s
    if usernames.length > 0 then
      emit s (.elog ("  " ++ orgName ++ ": " ++ toString usernames.length ++ " users"))
    else s

def phaseOrgUsers (cfg : Cfg) (s : St) : Except St St :=
  match checkCancel cfg.cancelAt s with
  | .error e => .error e
  | .ok s =>
    let s := emit (emit s (.elog "")) (.elog "=== Importing user-org associations ===")
    .ok (cfg.data.organizations.foldl (orgUserItem cfg) s)

/-- Step 15 body: one team's user associations (the source has no
cancellation check before this phase). -/
def teamUserItem (cfg : Cfg) (s : St) (team : Resource) : St :=
  let srcTeamID := resourceID team
  let teamName := resourceName team
  let destTeamID := slook s.ids.teams teamName
  if destTeamID = 0 then s
  else
    let usernames := aget cfg.data.teamUsers srcTeamID []
    let s := usernames.foldl (fun (s : St) username =>
      if slook s.ids.users username ≠ 0 then
        emit s (.epost (.teamUsers destTeamID)
          (Value.vobj [("id", Value.vnum (slook s.ids.users username))]))
      else s) s
    if usernames.length > 0 then
      emit s (.elog ("  " ++ teamName ++ ": " ++ toString usernames.length ++ " users"))
    else s

def phaseTeamUsers (cfg : Cfg) (s : St) : Except St St :=
  let s := emit s (.elog "=== Importing user-team associations ===")
  .ok (cfg.data.teams.foldl (teamUserItem cfg) s)

/-- The final log lines before `return nil`. -/
def phaseFinish (s : St) : Except St St :=
  .ok (emit (emit s (.elog "")) (.elog "=== Migration complete ==="))

/-- Steps preload through 10: everything the importer runs before the
schedules phase. -/
def importUpToJTs (cfg : Cfg) : Except St St :=
  phaseOrgs cfg (phasePreload cfg initSt) >>= phaseCredTypes cfg >>=
    phaseUsers cfg >>= phaseTeams cfg >>= phaseCreds cfg >>=
    phaseProjects cfg >>= phaseWait cfg >>= phaseInvs cfg >>=
    phaseHosts cfg >>= phaseGroups cfg >>= phaseJTs cfg

/-- `migration.importAll`: the dependency-ordered import. The result is
`Except.error` exactly on a cancellation return (every other failure is
absorbed into the log, as in the source). -/
def importAll (cfg : Cfg) : Except St St :=
  importUpToJTs cfg >>= phaseSchedules cfg >>= phaseWFJTs cfg >>=
    phaseNodes cfg >>= phaseOrgUsers cfg >>= phaseTeamUsers cfg >>= phaseFinish

/-- The observable outcome of one `importAll` call: the event list and
whether a cancellation error was returned. -/
def importRun (cfg : Cfg) : List Event × Bool :=
  match importAll cfg with
  | .ok s => (s.evs, false)
  | .error s => (s.evs, true)

/-- `migration.Run` (migration.go): the engine's run entry point. It
receives no exclusion map and no cancellable context, so it invokes
the import with no exclusions and a never-cancelled context. -/
def Run (dst : Dest) (dstType : String) (data : ExportedData)
    (preview : MigrationPreview) : List Event × Bool :=
  importRun
    { dst := dst
      dstType := dstType
      data := data
      preview := preview
      exclude := []
      cancelAt := none }

/-- Modelled from the spec: the job wrapper of a migration run. The
current `src` revision is missing the cancellable job runtime —
`api/job_handlers.go` calls `job.Cancel()`, but `models/job.go` defines no
`Cancel` and no `cancelled` status — so, per the spec ("Cancellation
observed between phases: the job returns a cancellation error;
`status = cancelled`"), a run whose import returns a cancellation error
ends with job status `cancelled`, and otherwise completes. -/
def runJobStatus (cfg : Cfg) : String :=
  if (importRun cfg).2 then "cancelled" else "completed"

/-- The state carried by an `importAll` result, whichever side it is on. -/
def resSt : Except St St → St
  | .ok s => s
  | .error s => s

/-! ### C2: cancellation ends the run -/

/-- The event list ends with the cancellation log line. -/
def EndsCancel (l : List Event) : Prop :=
  l.getLast? = some (.elog "Migration cancelled by user")

/-- Every error outcome of `g` carries an event list ending with the
cancellation log. -/
def CancelSafe (g : St → Except St St) : Prop :=
  ∀ s s', g s = .error s' → EndsCancel s'.evs

/-- Same property for an already-applied result. -/
def ValCancelSafe (a : Except St St) : Prop :=
  ∀ s', a = .error s' → EndsCancel s'.evs

theorem endsCancel_emit_cancel (s : St) :
    EndsCancel (emit s (.elog "Migration cancelled by user")).evs := by
  unfold EndsCancel emit
  exact List.getLast?_concat _

theorem checkCancel_safe (c : Option Nat) : CancelSafe (checkCancel c) := by
  intro s s' h
  unfold checkCancel at h
  split at h
  · injection h with h
    subst h
    exact endsCancel_emit_cancel _
  · exact Except.noConfusion h

theorem valSafe_bind {a : Except St St} {h : St → Except St St}
    (ha : ValCancelSafe a) (hh : CancelSafe h) : ValCancelSafe (a >>= h) := by
  intro s' he
  cases hax : a with
  | error e =>
    rw [hax] at he
    have : (Except.error e : Except St St) = Except.error s' := he
    injection this with this
    subst this
    exact ha e hax
  | ok t =>
    rw [hax] at he
    exact hh t s' he

theorem foldE_safe {α : Type} (f : St → α → Except St St)
    (hf : ∀ s x, ∀ s', f s x = .error s' → EndsCancel s'.evs) :
    ∀ (xs : List α) (s s' : St), foldE f s xs = .error s' → EndsCancel s'.evs := by
  intro xs
  induction xs with
  | nil => intro s s' h; exact Except.noConfusion h
  | cons x xs ih =>
    intro s s' h
    unfold foldE at h
    cases hfx : f s x with
    | error e =>
      rw [hfx] at h
      injection h with h
      subst h
      exact hf s x e hfx
    | ok t =>
      rw [hfx] at h
      exact ih t s' h

/-- All error exits of a phase that begins with `checkCancel` and
otherwise returns `.ok` come from the cancellation check. -/
theorem okPhase_safe (c : Option Nat) (body : St → St) :
    CancelSafe (fun s =>
      match checkCancel c s with
      | .error e => .error e
      | .ok s => Except.ok (body s)) := by
  intro s s' h
  dsimp only at h
  cases hc : checkCancel c s with
  | error e =>
    rw [hc] at h
    injection h with h
    subst h
    exact checkCancel_safe c s _ hc
  | ok t =>
    rw [hc] at h
    exact Except.noConfusion h

theorem phaseOrgs_safe (cfg : Cfg) : CancelSafe (phaseOrgs cfg) :=
  okPhase_safe cfg.cancelAt _

theorem phaseCredTypes_safe (cfg : Cfg) : CancelSafe (phaseCredTypes cfg) :=
  okPhase_safe cfg.cancelAt _

theorem phaseUsers_safe (cfg : Cfg) : CancelSafe (phaseUsers cfg) :=
  okPhase_safe cfg.cancelAt _

theorem phaseTeams_safe (cfg : Cfg) : CancelSafe (phaseTeams cfg) :=
  okPhase_safe cfg.cancelAt _

theorem phaseCreds_safe (cfg : Cfg) : CancelSafe (phaseCreds cfg) :=
  okPhase_safe cfg.cancelAt _

theorem phaseProjects_safe (cfg : Cfg) : CancelSafe (phaseProjects cfg) :=
  okPhase_safe cfg.cancelAt _

theorem phaseInvs_safe (cfg : Cfg) : CancelSafe (phaseInvs cfg) :=
  okPhase_safe cfg.cancelAt _

theorem phaseJTs_safe (cfg : Cfg) : CancelSafe (phaseJTs cfg) :=
  okPhase_safe cfg.cancelAt _

theorem phaseSchedules_safe (cfg : Cfg) : CancelSafe (phaseSchedules cfg) :=
  okPhase_safe cfg.cancelAt _

theorem phaseWFJTs_safe (cfg : Cfg) : CancelSafe (phaseWFJTs cfg) :=
  okPhase_safe cfg.cancelAt _

theorem phaseNodes_safe (cfg : Cfg) : CancelSafe (phaseNodes cfg) :=
  okPhase_safe cfg.cancelAt _

theorem phaseOrgUsers_safe (cfg : Cfg) : CancelSafe (phaseOrgUsers cfg) :=
  okPhase_safe cfg.cancelAt _

theorem phaseTeamUsers_safe (cfg : Cfg) : CancelSafe (phaseTeamUsers cfg) :=
  fun _ _ h => Except.noConfusion h

theorem phaseFinish_safe : CancelSafe phaseFinish :=
  fun _ _ h => Except.noConfusion h

theorem waitProjItem_safe (cfg : Cfg) :
    ∀ s x s', waitProjItem cfg s x = .error s' → EndsCancel s'.evs := by
  intro s x s' h
  unfold waitProjItem at h
  cases hc : checkCancel cfg.cancelAt s with
  | error e =>
    rw [hc] at h
    injection h with h
    subst h
    exact checkCancel_safe _ _ _ hc
  | ok t =>
    rw [hc] at h
    dsimp only at h
    split at h <;> exact Except.noConfusion h

theorem phaseWait_safe (cfg : Cfg) : CancelSafe (phaseWait cfg) := by
  intro s s' h
  unfold phaseWait at h
  split at h
  · exact foldE_safe _ (waitProjItem_safe cfg) _ _ _ h
  · exact Except.noConfusion h

theorem hostItem_safe (cfg : Cfg) (invName : String) (destInvID : Int) :
    ∀ s x s', hostItem cfg invName destInvID s x = .error s' → EndsCancel s'.evs := by
  intro s x s' h
  unfold hostItem at h
  cases hc : checkCancel cfg.cancelAt s with
  | error e =>
    rw [hc] at h
    injection h with h
    subst h
    exact checkCancel_safe _ _ _ hc
  | ok t =>
    rw [hc] at h
    dsimp only at h
    split at h
    · exact Except.noConfusion h
    · split at h
      · exact Except.noConfusion h
      · split at h <;> exact Except.noConfusion h

theorem hostInvItem_safe (cfg : Cfg) :
    ∀ s x s', hostInvItem cfg s x = .error s' → EndsCancel s'.evs := by
  intro s x s' h
  unfold hostInvItem at h
  dsimp only at h
  split at h
  · exact Except.noConfusion h
  · split at h
    · exact Except.noConfusion h
    · cases hfe : foldE (hostItem cfg (islook s.srcInvNames x.1)
          (slook s.ids.invs (islook s.srcInvNames x.1))) s x.2 with
      | error e =>
        rw [hfe] at h
        injection h with h
        subst h
        exact foldE_safe _ (hostItem_safe cfg _ _) _ _ _ hfe
      | ok t =>
        rw [hfe] at h
        exact Except.noConfusion h

theorem phaseHosts_safe (cfg : Cfg) : CancelSafe (phaseHosts cfg) := by
  intro s s' h
  unfold phaseHosts at h
  cases hc : checkCancel cfg.cancelAt s with
  | error e =>
    rw [hc] at h
    injection h with h
    subst h
    exact checkCancel_safe _ _ _ hc
  | ok t =>
    rw [hc] at h
    exact foldE_safe _ (hostInvItem_safe cfg) _ _ _ h

theorem groupItem_safe (cfg : Cfg) (invName : String) (destInvID : Int) :
    ∀ s x s', groupItem cfg invName destInvID s x = .error s' → EndsCancel s'.evs := by
  intro s x s' h
  unfold groupItem at h
  cases hc : checkCancel cfg.cancelAt s with
  | error e =>
    rw [hc] at h
    injection h with h
    subst h
    exact checkCancel_safe _ _ _ hc
  | ok t =>
    rw [hc] at h
    dsimp only at h
    split at h
    · exact Except.noConfusion h
    · split at h <;> exact Except.noConfusion h

theorem groupInvItem_safe (cfg : Cfg) :
    ∀ s x s', groupInvItem cfg s x = .error s' → EndsCancel s'.evs := by
  intro s x s' h
  unfold groupInvItem at h
  dsimp only at h
  split at h
  · exact Except.noConfusion h
  · split at h
    · exact Except.noConfusion h
    · cases hfe : foldE (groupItem cfg (islook s.srcInvNames x.1)
          (slook s.ids.invs (islook s.srcInvNames x.1))) s x.2 with
      | error e =>
        rw [hfe] at h
        injection h with h
        subst h
        exact foldE_safe _ (groupItem_safe cfg _ _) _ _ _ hfe
      | ok t =>
        rw [hfe] at h
        exact Except.noConfusion h

theorem phaseGroups_safe (cfg : Cfg) : CancelSafe (phaseGroups cfg) := by
  intro s s' h
  unfold phaseGroups at h
  cases hc : checkCancel cfg.cancelAt s with
  | error e =>
    rw [hc] at h
    injection h with h
    subst h
    exact checkCancel_safe _ _ _ hc
  | ok t =>
    rw [hc] at h
    exact foldE_safe _ (groupInvItem_safe cfg) _ _ _ h

theorem importAll_safe (cfg : Cfg) : ValCancelSafe (importAll cfg) := by
  unfold importAll importUpToJTs
  have base : ValCancelSafe (phaseOrgs cfg (phasePreload cfg initSt)) :=
    fun s' h => phaseOrgs_safe cfg _ s' h
  exact valSafe_bind (valSafe_bind (valSafe_bind (valSafe_bind (valSafe_bind
    (valSafe_bind (valSafe_bind (valSafe_bind (valSafe_bind (valSafe_bind
      (valSafe_bind (valSafe_bind (valSafe_bind (valSafe_bind (valSafe_bind
        (valSafe_bind base
          (phaseCredTypes_safe cfg)) (phaseUsers_safe cfg)) (phaseTeams_safe cfg))
          (phaseCreds_safe cfg)) (phaseProjects_safe cfg)) (phaseWait_safe cfg))
          (phaseInvs_safe cfg)) (phaseHosts_safe cfg)) (phaseGroups_safe cfg))
          (phaseJTs_safe cfg)) (phaseSchedules_safe cfg)) (phaseWFJTs_safe cfg))
          (phaseNodes_safe cfg)) (phaseOrgUsers_safe cfg)) (phaseTeamUsers_safe cfg))
          phaseFinish_safe

/-- C2 (amended from the job-status clause; cancellation behaviour of
`importAll` proved from part_005, the job wrapper modelled from the spec):
whenever `importAll` returns a cancellation error, the last event of the
run is the log line "Migration cancelled by user" — so every POST issued
strictly precedes the cancellation observation and no further POSTs are
issued — and the run job's status becomes `cancelled`. -/
theorem import_cancellation_spec (cfg : Cfg) (s : St)
    (h : importAll cfg = .error s) :
    s.evs.getLast? = some (.elog "Migration cancelled by user") ∧
    (∀ i ep p, s.evs.get? i = some (.epost ep p) → i + 1 < s.evs.length) ∧
    runJobStatus cfg = "cancelled" := by
  have hend : EndsCancel s.evs := importAll_safe cfg s h
  refine ⟨hend, ?_, ?_⟩
  · intro i ep p hp
    have hi : i < s.evs.length := by
      by_contra hcon
      rw [List.get?_eq_none.mpr (Nat.le_of_not_lt hcon)] at hp
      exact Option.noConfusion hp
    by_contra hcon
    have hi1 : i = s.evs.length - 1 := by omega
    have hlast : s.evs.get? (s.evs.length - 1) =
        some (Event.elog "Migration cancelled by user") := by
      rw [← List.getLast?_eq_get?]
      exact hend
    rw [← hi1] at hlast
    rw [hp] at hlast
    exact Event.noConfusion (Option.some.inj hlast)
  · unfold runJobStatus importRun
    rw [h]
    rfl

/-- A destination oracle that is never consulted. -/
def nullDest : Dest :=
  { create := fun _ _ => .error "unreachable"
    findByName := fun _ _ => none
    allCredTypes := []
    projStatus := fun _ _ => none }

/-- An empty export graph. -/
def emptyData : ExportedData :=
  { organizations := [], teams := [], users := [], credentialTypes := [],
    credentials := [], projects := [], inventories := [], hosts := [],
    groups := [], groupHosts := [], jobTemplates := [], surveys := [],
    workflowJTs := [], workflowNodes := [], schedules := [], orgUsers := [],
    teamUsers := [] }

def emptyPreview : MigrationPreview := { resources := [], warnings := [] }

/-- A run whose very first cancellation check observes the cancellation. -/
def cancelCfg : Cfg :=
  { dst := nullDest
    dstType := "awx"
    data := emptyData
    preview := emptyPreview
    exclude := []
    cancelAt := some 0 }

/-- Witness for C2: the immediately-cancelled run above. -/
theorem import_cancellation_spec_witness :
    (resSt (importAll cancelCfg)).evs.getLast? =
      some (.elog "Migration cancelled by user") ∧
    (∀ i ep p, (resSt (importAll cancelCfg)).evs.get? i = some (.epost ep p) →
      i + 1 < (resSt (importAll cancelCfg)).evs.length) ∧
    runJobStatus cancelCfg = "cancelled" :=
  import_cancellation_spec cancelCfg (resSt (importAll cancelCfg)) rfl

/-! ### C1: every credential POST carries empty `inputs` -/

/-- An event is harmless for C1: if it is a POST to the credentials
collection, its payload maps `inputs` to the empty object. -/
def EvCredOK (e : Event) : Prop :=
  ∀ p, e = .epost .credentials p → p.olook "inputs" = some (.vobj [])

/-- All events of a list are harmless for C1. -/
def AllCredOK (l : List Event) : Prop := ∀ e ∈ l, EvCredOK e

theorem evCredOK_elog (m : String) : EvCredOK (.elog m) :=
  fun _ h => Event.noConfusion h

theorem evCredOK_epost_ne (ep : EP) (p : Value) (h : ep ≠ .credentials) :
    EvCredOK (.epost ep p) := by
  intro q hq
  injection hq with h1 h2
  exact absurd h1 h

theorem allCredOK_emit (s : St) (e : Event) (hs : AllCredOK s.evs)
    (he : EvCredOK e) : AllCredOK (emit s e).evs := by
  intro x hx
  rcases List.mem_append.mp hx with hx | hx
  · exact hs x hx
  · rw [List.mem_singleton.mp hx]
    exact he

/-- State-record updates do not change the event list. -/
theorem allCredOK_ids (s : St) (m : IdMap) (hs : AllCredOK s.evs) :
    AllCredOK ({ s with ids := m }).evs := hs

/-- A function on states preserves C1-harmlessness of the event list. -/
def CredPres (g : St → St) : Prop :=
  ∀ s, AllCredOK s.evs → AllCredOK (g s).evs

/-- Same for an `Except`-valued body, on both sides. -/
def CredPresE (g : St → Except St St) : Prop :=
  ∀ s, AllCredOK s.evs → AllCredOK (resSt (g s)).evs

theorem credPres_foldl {α : Type} (f : St → α → St)
    (hf : ∀ x, CredPres (fun s => f s x)) :
    ∀ (xs : List α), CredPres (fun s => xs.foldl f s) := by
  intro xs
  induction xs with
  | nil => intro s hs; exact hs
  | cons x xs ih =>
    intro s hs
    exact ih (f s x) (hf x s hs)

theorem credPresE_foldE {α : Type} (f : St → α → Except St St)
    (hf : ∀ x, CredPresE (fun s => f s x)) :
    ∀ (xs : List α), CredPresE (fun s => foldE f s xs) := by
  intro xs
  induction xs with
  | nil => intro s hs; exact hs
  | cons x xs ih =>
    intro s hs
    unfold foldE
    cases hfx : f s x with
    | error e =>
      have := hf x s hs
      dsimp only at this
      rw [hfx] at this
      exact this
    | ok t =>
      have ht : AllCredOK t.evs := by
        have := hf x s hs
        dsimp only at this
        rw [hfx] at this
        exact this
      exact ih t ht

theorem checkCancel_credPresE (c : Option Nat) : CredPresE (checkCancel c) := by
  intro s hs
  unfold checkCancel
  split
  · exact allCredOK_emit _ _ hs (evCredOK_elog _)
  · exact hs

/-- An `.ok`-wrapped phase whose body preserves harmlessness. -/
theorem okPhase_credPresE (c : Option Nat) (body : St → St)
    (hb : CredPres body) :
    CredPresE (fun s =>
      match checkCancel c s with
      | .error e => .error e
      | .ok s => Except.ok (body s)) := by
  intro s hs
  dsimp only
  cases hc : checkCancel c s with
  | error e =>
    have := checkCancel_credPresE c s hs
    rw [hc] at this
    exact this
  | ok t =>
    have ht : AllCredOK t.evs := by
      have := checkCancel_credPresE c s hs
      rw [hc] at this
      exact this
    exact hb t ht

theorem orgItem_credPres (cfg : Cfg) :
    ∀ x, CredPres (fun s => orgItem cfg s x) := by
  intro x s hs
  unfold orgItem
  dsimp only
  repeat' split
  all_goals
    repeat
      first
        | exact hs
        | exact evCredOK_elog _
        | exact evCredOK_epost_ne _ _ (fun hne => EP.noConfusion hne)
        | (intro q hq; injection hq with h1 h2; subst h2; rfl)
        | apply allCredOK_emit

theorem credTypeItem_credPres (cfg : Cfg) :
    ∀ x, CredPres (fun s => credTypeItem cfg s x) := by
  intro x s hs
  unfold credTypeItem
  dsimp only
  repeat' split
  all_goals
    repeat
      first
        | exact hs
        | exact evCredOK_elog _
        | exact evCredOK_epost_ne _ _ (fun hne => EP.noConfusion hne)
        | (intro q hq; injection hq with h1 h2; subst h2; rfl)
        | apply allCredOK_emit

theorem userItem_credPres (cfg : Cfg) :
    ∀ x, CredPres (fun s => userItem cfg s x) := by
  intro x s hs
  unfold userItem
  dsimp only
  repeat' split
  all_goals
    repeat
      first
        | exact hs
        | exact evCredOK_elog _
        | exact evCredOK_epost_ne _ _ (fun hne => EP.noConfusion hne)
        | (intro q hq; injection hq with h1 h2; subst h2; rfl)
        | apply allCredOK_emit

theorem teamItem_credPres (cfg : Cfg) :
    ∀ x, CredPres (fun s => teamItem cfg s x) := by
  intro x s hs
  unfold teamItem
  dsimp only
  repeat' split
  all_goals
    repeat
      first
        | exact hs
        | exact evCredOK_elog _
        | exact evCredOK_epost_ne _ _ (fun hne => EP.noConfusion hne)
        | (intro q hq; injection hq with h1 h2; subst h2; rfl)
        | apply allCredOK_emit

theorem credItem_credPres (cfg : Cfg) :
    ∀ x, CredPres (fun s => credItem cfg s x) := by
  intro x s hs
  unfold credItem
  dsimp only
  repeat' split
  all_goals
    repeat
      first
        | exact hs
        | exact evCredOK_elog _
        | exact evCredOK_epost_ne _ _ (fun hne => EP.noConfusion hne)
        | (intro q hq; injection hq with h1 h2; subst h2; rfl)
        | apply allCredOK_emit

theorem projItem_credPres (cfg : Cfg) :
    ∀ x, CredPres (fun s => projItem cfg s x) := by
  intro x s hs
  unfold projItem
  dsimp only
  repeat' split
  all_goals
    repeat
      first
        | exact hs
        | exact evCredOK_elog _
        | exact evCredOK_epost_ne _ _ (fun hne => EP.noConfusion hne)
        | (intro q hq; injection hq with h1 h2; subst h2; rfl)
        | apply allCredOK_emit

theorem invItem_credPres (cfg : Cfg) :
    ∀ x, CredPres (fun s => invItem cfg s x) := by
  intro x s hs
  unfold invItem
  dsimp only
  repeat' split
  all_goals
    repeat
      first
        | exact hs
        | exact evCredOK_elog _
        | exact evCredOK_epost_ne _ _ (fun hne => EP.noConfusion hne)
        | (intro q hq; injection hq with h1 h2; subst h2; rfl)
        | apply allCredOK_emit

theorem schedItem_credPres (cfg : Cfg) :
    ∀ x, CredPres (fun s => schedItem cfg s x) := by
  intro x s hs
  unfold schedItem
  dsimp only
  repeat' split
  all_goals
    repeat
      first
        | exact hs
        | exact evCredOK_elog _
        | exact evCredOK_epost_ne _ _ (fun hne => EP.noConfusion hne)
        | (intro q hq; injection hq with h1 h2; subst h2; rfl)
        | apply allCredOK_emit

theorem wfItem_credPres (cfg : Cfg) :
    ∀ x, CredPres (fun s => wfItem cfg s x) := by
  intro x s hs
  unfold wfItem
  dsimp only
  repeat' split
  all_goals
    repeat
      first
        | exact hs
        | exact evCredOK_elog _
        | exact evCredOK_epost_ne _ _ (fun hne => EP.noConfusion hne)
        | (intro q hq; injection hq with h1 h2; subst h2; rfl)
        | apply allCredOK_emit

theorem nodeCreateItem_credPres (cfg : Cfg) (destWFID : Int) :
    ∀ x, CredPres (fun s => nodeCreateItem cfg destWFID s x) := by
  intro x s hs
  unfold nodeCreateItem
  dsimp only
  repeat' split
  all_goals
    repeat
      first
        | exact hs
        | exact evCredOK_elog _
        | exact evCredOK_epost_ne _ _ (fun hne => EP.noConfusion hne)
        | (intro q hq; injection hq with h1 h2; subst h2; rfl)
        | apply allCredOK_emit

theorem wireEdges_credPres (destNodeID : Int) (node : Resource) (edgeType : String) :
    CredPres (wireEdges destNodeID node edgeType) := by
  intro s hs
  unfold wireEdges
  split
  · exact hs
  · refine credPres_foldl _ ?_ _ s hs
    intro e t ht
    dsimp only
    split
    · exact allCredOK_emit _ _ ht (evCredOK_epost_ne _ _ (fun hne => EP.noConfusion hne))
    · exact ht

theorem nodeEdgeItem_credPres :
    ∀ x, CredPres (fun s => nodeEdgeItem s x) := by
  intro x s hs
  unfold nodeEdgeItem
  dsimp only
  split
  · exact hs
  · exact wireEdges_credPres _ _ _ _
      (wireEdges_credPres _ _ _ _ (wireEdges_credPres _ _ _ _ hs))

theorem wfNodesItem_credPres (cfg : Cfg) :
    ∀ x, CredPres (fun s => wfNodesItem cfg s x) := by
  intro x s hs
  unfold wfNodesItem
  dsimp only
  split
  · exact hs
  · split
    · exact hs
    · split
      · apply allCredOK_emit
        · apply allCredOK_emit
          · exact credPres_foldl _ nodeEdgeItem_credPres _ _
              (credPres_foldl _ (nodeCreateItem_credPres cfg _) _ s hs)
          · exact evCredOK_elog _
        · exact evCredOK_epost_ne _ _ (fun hne => EP.noConfusion hne)
      · apply allCredOK_emit
        · exact credPres_foldl _ nodeEdgeItem_credPres _ _
            (credPres_foldl _ (nodeCreateItem_credPres cfg _) _ s hs)
        · exact evCredOK_elog _

theorem orgUserItem_credPres (cfg : Cfg) :
    ∀ x, CredPres (fun s => orgUserItem cfg s x) := by
  intro x s hs
  unfold orgUserItem
  dsimp only
  split
  · exact hs
  · split
    · apply allCredOK_emit
      · refine credPres_foldl _ ?_ _ s hs
        intro u t ht
        dsimp only
        split
        · exact allCredOK_emit _ _ ht
            (evCredOK_epost_ne _ _ (fun hne => EP.noConfusion hne))
        · exact ht
      · exact evCredOK_elog _
    · refine credPres_foldl _ ?_ _ s hs
      intro u t ht
      dsimp only
      split
      · exact allCredOK_emit _ _ ht
          (evCredOK_epost_ne _ _ (fun hne => EP.noConfusion hne))
      · exact ht

theorem teamUserItem_credPres (cfg : Cfg) :
    ∀ x, CredPres (fun s => teamUserItem cfg s x) := by
  intro x s hs
  unfold teamUserItem
  dsimp only
  split
  · exact hs
  · split
    · apply allCredOK_emit
      · refine credPres_foldl _ ?_ _ s hs
        intro u t ht
        dsimp only
        split
        · exact allCredOK_emit _ _ ht
            (evCredOK_epost_ne _ _ (fun hne => EP.noConfusion hne))
        · exact ht
      · exact evCredOK_elog _
    · refine credPres_foldl _ ?_ _ s hs
      intro u t ht
      dsimp only
      split
      · exact allCredOK_emit _ _ ht
          (evCredOK_epost_ne _ _ (fun hne => EP.noConfusion hne))
      · exact ht

theorem hostItem_credPresE (cfg : Cfg) (invName : String) (destInvID : Int) :
    ∀ x, CredPresE (fun s => hostItem cfg invName destInvID s x) := by
  intro x s hs
  dsimp only
  unfold hostItem
  cases hc : checkCancel cfg.cancelAt s with
  | error e =>
    have := checkCancel_credPresE cfg.cancelAt s hs
    rw [hc] at this
    exact this
  | ok t =>
    have ht : AllCredOK t.evs := by
      have := checkCancel_credPresE cfg.cancelAt s hs
      rw [hc] at this
      exact this
    dsimp only
    have ht' : AllCredOK ({ t with srcHostNames :=
        (resourceID x, resourceName x) :: t.srcHostNames } : St).evs := ht
    repeat' split
    all_goals
      repeat
        first
          | exact ht'
          | exact evCredOK_elog _
          | exact evCredOK_epost_ne _ _ (fun hne => EP.noConfusion hne)
          | apply allCredOK_emit

theorem hostInvItem_credPresE (cfg : Cfg) :
    ∀ x, CredPresE (fun s => hostInvItem cfg s x) := by
  intro x s hs
  dsimp only
  unfold hostInvItem
  dsimp only
  split
  · exact hs
  · split
    · apply allCredOK_emit
      · exact hs
      · exact evCredOK_elog _
    · cases hfe : foldE (hostItem cfg (islook s.srcInvNames x.1)
          (slook s.ids.invs (islook s.srcInvNames x.1))) s x.2 with
      | error e =>
        have := credPresE_foldE
          (hostItem cfg (islook s.srcInvNames x.1) (slook s.ids.invs (islook s.srcInvNames x.1)))
          (hostItem_credPresE cfg _ _) x.2 s hs
        dsimp only at this
        rw [hfe] at this
        exact this
      | ok t =>
        have ht : AllCredOK t.evs := by
          have := credPresE_foldE
            (hostItem cfg (islook s.srcInvNames x.1)
              (slook s.ids.invs (islook s.srcInvNames x.1)))
            (hostItem_credPresE cfg _ _) x.2 s hs
          dsimp only at this
          rw [hfe] at this
          exact this
        exact allCredOK_emit _ _ ht (evCredOK_elog _)

theorem groupItem_credPresE (cfg : Cfg) (invName : String) (destInvID : Int) :
    ∀ x, CredPresE (fun s => groupItem cfg invName destInvID s x) := by
  intro x s hs
  dsimp only
  unfold groupItem
  cases hc : checkCancel cfg.cancelAt s with
  | error e =>
    have := checkCancel_credPresE cfg.cancelAt s hs
    rw [hc] at this
    exact this
  | ok t =>
    have ht : AllCredOK t.evs := by
      have := checkCancel_credPresE cfg.cancelAt s hs
      rw [hc] at this
      exact this
    dsimp only
    have hassoc : ∀ (u : St) (g : Int), AllCredOK u.evs →
        AllCredOK ((aget cfg.data.groupHosts (resourceID x) []).foldl
          (fun (s : St) srcHostID =>
            match sfind s.ids.hosts (invName ++ "/" ++ islook s.srcHostNames srcHostID) with
            | some destHostID =>
              emit s (.epost (.groupHosts g) (Value.vobj [("id", Value.vnum destHostID)]))
            | none => s) u).evs := by
      intro u g hu
      refine credPres_foldl _ ?_ _ u hu
      intro hid v hv
      dsimp only
      split
      · exact allCredOK_emit _ _ hv
          (evCredOK_epost_ne _ _ (fun hne => EP.noConfusion hne))
      · exact hv
    split
    · exact hassoc _ _ ht
    · split
      · apply allCredOK_emit
        · apply allCredOK_emit
          · exact ht
          · exact evCredOK_epost_ne _ _ (fun hne => EP.noConfusion hne)
        · exact evCredOK_elog _
      · refine hassoc _ _ ?_
        apply allCredOK_emit
        · exact ht
        · exact evCredOK_epost_ne _ _ (fun hne => EP.noConfusion hne)

theorem groupInvItem_credPresE (cfg : Cfg) :
    ∀ x, CredPresE (fun s => groupInvItem cfg s x) := by
  intro x s hs
  dsimp only
  unfold groupInvItem
  dsimp only
  split
  · exact hs
  · split
    · exact hs
    · cases hfe : foldE (groupItem cfg (islook s.srcInvNames x.1)
          (slook s.ids.invs (islook s.srcInvNames x.1))) s x.2 with
      | error e =>
        have := credPresE_foldE
          (groupItem cfg (islook s.srcInvNames x.1) (slook s.ids.invs (islook s.srcInvNames x.1)))
          (groupItem_credPresE cfg _ _) x.2 s hs
        dsimp only at this
        rw [hfe] at this
        exact this
      | ok t =>
        have ht : AllCredOK t.evs := by
          have := credPresE_foldE
            (groupItem cfg (islook s.srcInvNames x.1)
              (slook s.ids.invs (islook s.srcInvNames x.1)))
            (groupItem_credPresE cfg _ _) x.2 s hs
          dsimp only at this
          rw [hfe] at this
          exact this
        exact allCredOK_emit _ _ ht (evCredOK_elog _)

theorem waitProjItem_credPresE (cfg : Cfg) :
    ∀ x, CredPresE (fun s => waitProjItem cfg s x) := by
  intro x s hs
  dsimp only
  unfold waitProjItem
  cases hc : checkCancel cfg.cancelAt s with
  | error e =>
    have := checkCancel_credPresE cfg.cancelAt s hs
    rw [hc] at this
    exact this
  | ok t =>
    have ht : AllCredOK t.evs := by
      have := checkCancel_credPresE cfg.cancelAt s hs
      rw [hc] at this
      exact this
    dsimp only
    split
    · exact allCredOK_emit _ _ ht (evCredOK_elog _)
    · exact allCredOK_emit _ _ ht (evCredOK_elog _)

theorem allCredOK_nil : AllCredOK [] := fun e he => absurd he (List.not_mem_nil e)

theorem phaseOrgs_credOK (cfg : Cfg) : CredPresE (phaseOrgs cfg) :=
  okPhase_credPresE cfg.cancelAt _ (fun s hs =>
    credPres_foldl _ (orgItem_credPres cfg) _ _
      (allCredOK_emit _ _ hs (evCredOK_elog _)))

theorem phaseCredTypes_credOK (cfg : Cfg) : CredPresE (phaseCredTypes cfg) :=
  okPhase_credPresE cfg.cancelAt _ (fun s hs =>
    credPres_foldl _ (credTypeItem_credPres cfg) _ _
      (allCredOK_emit _ _ (allCredOK_emit _ _ hs (evCredOK_elog _)) (evCredOK_elog _)))

theorem phaseUsers_credOK (cfg : Cfg) : CredPresE (phaseUsers cfg) :=
  okPhase_credPresE cfg.cancelAt _ (fun s hs =>
    credPres_foldl _ (userItem_credPres cfg) _ _
      (allCredOK_emit _ _ (allCredOK_emit _ _ hs (evCredOK_elog _)) (evCredOK_elog _)))

theorem phaseTeams_credOK (cfg : Cfg) : CredPresE (phaseTeams cfg) :=
  okPhase_credPresE cfg.cancelAt _ (fun s hs =>
    credPres_foldl _ (teamItem_credPres cfg) _ _
      (allCredOK_emit _ _ (allCredOK_emit _ _ hs (evCredOK_elog _)) (evCredOK_elog _)))

theorem phaseCreds_credOK (cfg : Cfg) : CredPresE (phaseCreds cfg) :=
  okPhase_credPresE cfg.cancelAt _ (fun s hs =>
    credPres_foldl _ (credItem_credPres cfg) _ _
      (allCredOK_emit _ _ (allCredOK_emit _ _ hs (evCredOK_elog _)) (evCredOK_elog _)))

theorem phaseProjects_credOK (cfg : Cfg) : CredPresE (phaseProjects cfg) :=
  okPhase_credPresE cfg.cancelAt _ (fun s hs =>
    credPres_foldl _ (projItem_credPres cfg) _ _
      (allCredOK_emit _ _ (allCredOK_emit _ _ hs (evCredOK_elog _)) (evCredOK_elog _)))

theorem phaseWait_credOK (cfg : Cfg) : CredPresE (phaseWait cfg) := by
  intro s hs
  unfold phaseWait
  split
  · exact credPresE_foldE (waitProjItem cfg) (waitProjItem_credPresE cfg)
      s.projWait _ (allCredOK_emit _ _ hs (evCredOK_elog _))
  · exact hs

theorem phaseInvs_credOK (cfg : Cfg) : CredPresE (phaseInvs cfg) :=
  okPhase_credPresE cfg.cancelAt _ (fun s hs =>
    credPres_foldl _ (invItem_credPres cfg) _ _
      (allCredOK_emit _ _ (allCredOK_emit _ _ hs (evCredOK_elog _)) (evCredOK_elog _)))

theorem phaseHosts_credOK (cfg : Cfg) : CredPresE (phaseHosts cfg) := by
  intro s hs
  unfold phaseHosts
  cases hc : checkCancel cfg.cancelAt s with
  | error e =>
    have := checkCancel_credPresE cfg.cancelAt s hs
    rw [hc] at this
    exact this
  | ok t =>
    have ht : AllCredOK t.evs := by
      have := checkCancel_credPresE cfg.cancelAt s hs
      rw [hc] at this
      exact this
    exact credPresE_foldE (hostInvItem cfg) (hostInvItem_credPresE cfg)
      cfg.data.hosts _
      (allCredOK_emit _ _ (allCredOK_emit _ _ ht (evCredOK_elog _)) (evCredOK_elog _))

theorem phaseGroups_credOK (cfg : Cfg) : CredPresE (phaseGroups cfg) := by
  intro s hs
  unfold phaseGroups
  cases hc : checkCancel cfg.cancelAt s with
  | error e =>
    have := checkCancel_credPresE cfg.cancelAt s hs
    rw [hc] at this
    exact this
  | ok t =>
    have ht : AllCredOK t.evs := by
      have := checkCancel_credPresE cfg.cancelAt s hs
      rw [hc] at this
      exact this
    exact credPresE_foldE (groupInvItem cfg) (groupInvItem_credPresE cfg)
      cfg.data.groups _
      (allCredOK_emit _ _ (allCredOK_emit _ _ ht (evCredOK_elog _)) (evCredOK_elog _))

theorem jtItem_credPres (cfg : Cfg) :
    ∀ x, CredPres (fun s => jtItem cfg s x) := by
  intro x s hs
  unfold jtItem
  dsimp only
  split
  · exact allCredOK_emit _ _ hs (evCredOK_elog _)
  · split
    · exact allCredOK_emit _ _ hs (evCredOK_elog _)
    · split
      · exact allCredOK_emit _ _
          (allCredOK_emit _ _ hs
            (evCredOK_epost_ne _ _ (fun hne => EP.noConfusion hne)))
          (evCredOK_elog _)
      · have hcreds : ∀ (u : St), AllCredOK u.evs → ∀ (id : Int),
            AllCredOK ((extractCredentialNames x).foldl (fun (s : St) credName =>
              if slook s.ids.creds credName ≠ 0 then
                emit s (.epost (.jtCredentials id)
                  (Value.vobj [("id", Value.vnum (slook s.ids.creds credName))]))
              else s) u).evs := by
          intro u hu id
          refine credPres_foldl _ ?_ _ u hu
          intro c v hv
          dsimp only
          split
          · exact allCredOK_emit _ _ hv
              (evCredOK_epost_ne _ _ (fun hne => EP.noConfusion hne))
          · exact hv
        split
        · apply allCredOK_emit
          · apply hcreds
            apply allCredOK_emit
            apply allCredOK_emit
            · exact hs
            · exact evCredOK_epost_ne _ _ (fun hne => EP.noConfusion hne)
            · exact evCredOK_elog _
          · exact evCredOK_epost_ne _ _ (fun hne => EP.noConfusion hne)
        · apply hcreds
          apply allCredOK_emit
          apply allCredOK_emit
          · exact hs
          · exact evCredOK_epost_ne _ _ (fun hne => EP.noConfusion hne)
          · exact evCredOK_elog _

theorem phaseJTs_credOK (cfg : Cfg) : CredPresE (phaseJTs cfg) :=
  okPhase_credPresE cfg.cancelAt _ (fun s hs =>
    credPres_foldl _ (jtItem_credPres cfg) _ _
      (allCredOK_emit _ _ (allCredOK_emit _ _ hs (evCredOK_elog _)) (evCredOK_elog _)))

theorem phaseSchedules_credOK (cfg : Cfg) : CredPresE (phaseSchedules cfg) :=
  okPhase_credPresE cfg.cancelAt _ (fun s hs =>
    credPres_foldl _ (schedItem_credPres cfg) _ _
      (allCredOK_emit _ _ (allCredOK_emit _ _ hs (evCredOK_elog _)) (evCredOK_elog _)))

theorem phaseWFJTs_credOK (cfg : Cfg) : CredPresE (phaseWFJTs cfg) :=
  okPhase_credPresE cfg.cancelAt _ (fun s hs =>
    credPres_foldl _ (wfItem_credPres cfg) _ _
      (allCredOK_emit _ _ (allCredOK_emit _ _ hs (evCredOK_elog _)) (evCredOK_elog _)))

theorem phaseNodes_credOK (cfg : Cfg) : CredPresE (phaseNodes cfg) :=
  okPhase_credPresE cfg.cancelAt _ (fun s hs =>
    credPres_foldl _ (wfNodesItem_credPres cfg) _ _
      (allCredOK_emit _ _ (allCredOK_emit _ _ hs (evCredOK_elog _)) (evCredOK_elog _)))

theorem phaseOrgUsers_credOK (cfg : Cfg) : CredPresE (phaseOrgUsers cfg) :=
  okPhase_credPresE cfg.cancelAt _ (fun s hs =>
    credPres_foldl _ (orgUserItem_credPres cfg) _ _
      (allCredOK_emit _ _ (allCredOK_emit _ _ hs (evCredOK_elog _)) (evCredOK_elog _)))

theorem phaseTeamUsers_credOK (cfg : Cfg) : CredPresE (phaseTeamUsers cfg) := by
  intro s hs
  unfold phaseTeamUsers
  exact credPres_foldl _ (teamUserItem_credPres cfg) _ _
    (allCredOK_emit _ _ hs (evCredOK_elog _))

theorem phaseFinish_credOK : CredPresE phaseFinish := by
  intro s hs
  unfold phaseFinish
  exact allCredOK_emit _ _ (allCredOK_emit _ _ hs (evCredOK_elog _)) (evCredOK_elog _)

/-- Results of terminated phases are harmless. -/
def ValCredOK (a : Except St St) : Prop := AllCredOK (resSt a).evs

theorem valCredOK_bind {a : Except St St} {f : St → Except St St}
    (ha : ValCredOK a) (hf : CredPresE f) : ValCredOK (a >>= f) := by
  cases a with
  | error e => exact ha
  | ok t => exact hf t ha

theorem importAll_credOK (cfg : Cfg) : ValCredOK (importAll cfg) := by
  unfold importAll importUpToJTs
  have base : ValCredOK (phaseOrgs cfg (phasePreload cfg initSt)) :=
    phaseOrgs_credOK cfg (phasePreload cfg initSt) allCredOK_nil
  exact valCredOK_bind (valCredOK_bind (valCredOK_bind (valCredOK_bind
    (valCredOK_bind (valCredOK_bind (valCredOK_bind (valCredOK_bind
      (valCredOK_bind (valCredOK_bind (valCredOK_bind (valCredOK_bind
        (valCredOK_bind (valCredOK_bind (valCredOK_bind
          (valCredOK_bind base
            (phaseCredTypes_credOK cfg)) (phaseUsers_credOK cfg))
            (phaseTeams_credOK cfg)) (phaseCreds_credOK cfg))
            (phaseProjects_credOK cfg)) (phaseWait_credOK cfg))
            (phaseInvs_credOK cfg)) (phaseHosts_credOK cfg))
            (phaseGroups_credOK cfg)) (phaseJTs_credOK cfg))
            (phaseSchedules_credOK cfg)) (phaseWFJTs_credOK cfg))
            (phaseNodes_credOK cfg)) (phaseOrgUsers_credOK cfg))
            (phaseTeamUsers_credOK cfg)) phaseFinish_credOK

/-- C1: every POST the importer issues to the credentials collection maps
`inputs` to the empty object, regardless of the source credential's
inputs — the credentials-phase payload hardcodes `inputs = {}` and no
other phase posts to that endpoint. -/
theorem cred_inputs_empty (cfg : Cfg) (i : Nat) (p : Value)
    (h : (importRun cfg).1.get? i = some (.epost .credentials p)) :
    p.olook "inputs" = some (.vobj []) := by
  have hall : AllCredOK (resSt (importAll cfg)).evs := importAll_credOK cfg
  have hev : (importRun cfg).1 = (resSt (importAll cfg)).evs := by
    unfold importRun
    cases importAll cfg <;> rfl
  rw [hev] at h
  exact hall _ (List.get?_mem h) p rfl

/-- A source credential whose type resolves by name. -/
def credRes : Resource :=
  [("id", Value.vnum 3), ("name", Value.vstr "SCM Key"),
   ("credential_type", Value.vnum 2),
   ("summary_fields", Value.vobj
     [("credential_type", Value.vobj [("name", Value.vstr "Machine")])])]

def credDest : Dest :=
  { create := fun _ _ => .ok 11
    findByName := fun _ _ => none
    allCredTypes := [[("id", Value.vnum 9), ("name", Value.vstr "Machine")]]
    projStatus := fun _ _ => some "successful" }

def credData : ExportedData :=
  { organizations := [], teams := [], users := [], credentialTypes := [],
    credentials := [credRes],
    projects := [], inventories := [], hosts := [], groups := [],
    groupHosts := [], jobTemplates := [], surveys := [], workflowJTs := [],
    workflowNodes := [], schedules := [], orgUsers := [], teamUsers := [] }

def credCfg : Cfg :=
  { dst := credDest
    dstType := "awx"
    data := credData
    preview := emptyPreview
    exclude := []
    cancelAt := none }

/-- Witness for C1: the run above creates one credential; its POST payload
(at event index 9) maps `inputs` to the empty object. -/
theorem cred_inputs_empty_witness :
    (Value.vobj
      [("name", Value.vstr "SCM Key"),
       ("description", Value.vstr ""),
       ("organization", Value.vnum 0),
       ("credential_type", Value.vnum 9),
       ("inputs", Value.vobj [])]).olook "inputs" = some (.vobj []) :=
  cred_inputs_empty credCfg 9
    (Value.vobj
      [("name", Value.vstr "SCM Key"),
       ("description", Value.vstr ""),
       ("organization", Value.vnum 0),
       ("credential_type", Value.vnum 9),
       ("inputs", Value.vobj [])]) rfl

/-! ### C10: the schedules phase runs before the workflow phase -/

/-- A state transformer that leaves `ids.wfjts` unchanged. -/
def WfjtsPres (g : St → St) : Prop :=
  ∀ s, (g s).ids.wfjts = s.ids.wfjts

/-- Same for an `Except`-valued body (on both sides). -/
def WfjtsPresE (g : St → Except St St) : Prop :=
  ∀ s, (resSt (g s)).ids.wfjts = s.ids.wfjts

theorem wfjtsPres_foldl {α : Type} (f : St → α → St)
    (hf : ∀ x, WfjtsPres (fun s => f s x)) :
    ∀ (xs : List α) (s : St), (xs.foldl f s).ids.wfjts = s.ids.wfjts := by
  intro xs
  induction xs with
  | nil => intro s; rfl
  | cons x xs ih =>
    intro s
    rw [List.foldl_cons, ih (f s x), hf x s]

theorem wfjtsPresE_foldE {α : Type} (f : St → α → Except St St)
    (hf : ∀ x, WfjtsPresE (fun s => f s x)) :
    ∀ (xs : List α) (s : St), (resSt (foldE f s xs)).ids.wfjts = s.ids.wfjts := by
  intro xs
  induction xs with
  | nil => intro s; rfl
  | cons x xs ih =>
    intro s
    unfold foldE
    cases hfx : f s x with
    | error e =>
      have := hf x s
      dsimp only at this
      rw [hfx] at this
      exact this
    | ok t =>
      have ht : t.ids.wfjts = s.ids.wfjts := by
        have := hf x s
        dsimp only at this
        rw [hfx] at this
        exact this
      rw [ih t, ht]

theorem checkCancel_wfjts (c : Option Nat) :
    ∀ s, (resSt (checkCancel c s)).ids.wfjts = s.ids.wfjts := by
  intro s
  unfold checkCancel
  split <;> rfl

theorem okPhase_wfjts (c : Option Nat) (body : St → St)
    (hb : ∀ s, (body s).ids.wfjts = s.ids.wfjts) :
    WfjtsPresE (fun s =>
      match checkCancel c s with
      | .error e => .error e
      | .ok s => Except.ok (body s)) := by
  intro s
  dsimp only
  cases hc : checkCancel c s with
  | error e =>
    have := checkCancel_wfjts c s
    rw [hc] at this
    exact this
  | ok t =>
    have ht : t.ids.wfjts = s.ids.wfjts := by
      have := checkCancel_wfjts c s
      rw [hc] at this
      exact this
    show (body t).ids.wfjts = s.ids.wfjts
    rw [hb t, ht]

theorem orgItem_wfjts (cfg : Cfg) : ∀ x, WfjtsPres (fun s => orgItem cfg s x) := by
  intro x s
  unfold orgItem
  dsimp only
  repeat' split
  all_goals rfl

theorem credTypeItem_wfjts (cfg : Cfg) : ∀ x, WfjtsPres (fun s => credTypeItem cfg s x) := by
  intro x s
  unfold credTypeItem
  dsimp only
  repeat' split
  all_goals rfl

theorem userItem_wfjts (cfg : Cfg) : ∀ x, WfjtsPres (fun s => userItem cfg s x) := by
  intro x s
  unfold userItem
  dsimp only
  repeat' split
  all_goals rfl

theorem teamItem_wfjts (cfg : Cfg) : ∀ x, WfjtsPres (fun s => teamItem cfg s x) := by
  intro x s
  unfold teamItem
  dsimp only
  repeat' split
  all_goals rfl

theorem credItem_wfjts (cfg : Cfg) : ∀ x, WfjtsPres (fun s => credItem cfg s x) := by
  intro x s
  unfold credItem
  dsimp only
  repeat' split
  all_goals rfl

theorem projItem_wfjts (cfg : Cfg) : ∀ x, WfjtsPres (fun s => projItem cfg s x) := by
  intro x s
  unfold projItem
  dsimp only
  repeat' split
  all_goals rfl

theorem invItem_wfjts (cfg : Cfg) : ∀ x, WfjtsPres (fun s => invItem cfg s x) := by
  intro x s
  unfold invItem
  dsimp only
  repeat' split
  all_goals rfl

theorem emit_ids (s : St) (e : Event) : (emit s e).ids = s.ids := rfl

theorem resSt_ok (s : St) : resSt (.ok s) = s := rfl

theorem resSt_error (s : St) : resSt (.error s) = s := rfl

theorem jtItem_wfjts (cfg : Cfg) : ∀ x, WfjtsPres (fun s => jtItem cfg s x) := by
  intro x s
  unfold jtItem
  dsimp only
  have hfold : ∀ (u : St) (id : Int),
      ((extractCredentialNames x).foldl (fun (s : St) credName =>
        if slook s.ids.creds credName ≠ 0 then
          emit s (.epost (.jtCredentials id)
            (Value.vobj [("id", Value.vnum (slook s.ids.creds credName))]))
        else s) u).ids.wfjts = u.ids.wfjts := by
    intro u id
    rw [wfjtsPres_foldl]
    intro c t
    dsimp only
    split <;> rfl
  repeat' split
  all_goals simp only [emit_ids]
  all_goals first
    | rfl
    | (rw [hfold]; rfl)

theorem waitProjItem_wfjts (cfg : Cfg) : ∀ x, WfjtsPresE (fun s => waitProjItem cfg s x) := by
  intro x s
  dsimp only
  unfold waitProjItem
  cases hc : checkCancel cfg.cancelAt s with
  | error e =>
    have := checkCancel_wfjts cfg.cancelAt s
    rw [hc] at this
    exact this
  | ok t =>
    have ht : t.ids.wfjts = s.ids.wfjts := by
      have := checkCancel_wfjts cfg.cancelAt s
      rw [hc] at this
      exact this
    dsimp only
    split <;> exact ht

theorem hostItem_wfjts (cfg : Cfg) (invName : String) (destInvID : Int) :
    ∀ x, WfjtsPresE (fun s => hostItem cfg invName destInvID s x) := by
  intro x s
  dsimp only
  unfold hostItem
  cases hc : checkCancel cfg.cancelAt s with
  | error e =>
    have := checkCancel_wfjts cfg.cancelAt s
    rw [hc] at this
    exact this
  | ok t =>
    have ht : t.ids.wfjts = s.ids.wfjts := by
      have := checkCancel_wfjts cfg.cancelAt s
      rw [hc] at this
      exact this
    dsimp only
    repeat' split
    all_goals exact ht

theorem hostInvItem_wfjts (cfg : Cfg) : ∀ x, WfjtsPresE (fun s => hostInvItem cfg s x) := by
  intro x s
  dsimp only
  unfold hostInvItem
  dsimp only
  split
  · rfl
  · split
    · rfl
    · cases hfe : foldE (hostItem cfg (islook s.srcInvNames x.1)
          (slook s.ids.invs (islook s.srcInvNames x.1))) s x.2 with
      | error e =>
        have := wfjtsPresE_foldE
          (hostItem cfg (islook s.srcInvNames x.1)
            (slook s.ids.invs (islook s.srcInvNames x.1)))
          (hostItem_wfjts cfg _ _) x.2 s
        rw [hfe] at this
        exact this
      | ok t =>
        have ht : t.ids.wfjts = s.ids.wfjts := by
          have := wfjtsPresE_foldE
            (hostItem cfg (islook s.srcInvNames x.1)
              (slook s.ids.invs (islook s.srcInvNames x.1)))
            (hostItem_wfjts cfg _ _) x.2 s
          rw [hfe] at this
          exact this
        exact ht

theorem groupItem_wfjts (cfg : Cfg) (invName : String) (destInvID : Int) :
    ∀ x, WfjtsPresE (fun s => groupItem cfg invName destInvID s x) := by
  intro x s
  dsimp only
  unfold groupItem
  cases hc : checkCancel cfg.cancelAt s with
  | error e =>
    have := checkCancel_wfjts cfg.cancelAt s
    rw [hc] at this
    exact this
  | ok t =>
    have ht : t.ids.wfjts = s.ids.wfjts := by
      have := checkCancel_wfjts cfg.cancelAt s
      rw [hc] at this
      exact this
    have hassoc : ∀ (u : St) (g : Int),
        ((aget cfg.data.groupHosts (resourceID x) []).foldl
          (fun (s : St) srcHostID =>
            match sfind s.ids.hosts (invName ++ "/" ++ islook s.srcHostNames srcHostID) with
            | some destHostID =>
              emit s (.epost (.groupHosts g) (Value.vobj [("id", Value.vnum destHostID)]))
            | none => s) u).ids.wfjts = u.ids.wfjts := by
      intro u g
      rw [wfjtsPres_foldl]
      intro hid v
      dsimp only
      split <;> rfl
    dsimp only
    repeat' split
    all_goals simp only [resSt_ok, resSt_error, emit_ids]
    all_goals first
      | (rw [hassoc]; exact ht)
      | exact ht

theorem groupInvItem_wfjts (cfg : Cfg) : ∀ x, WfjtsPresE (fun s => groupInvItem cfg s x) := by
  intro x s
  dsimp only
  unfold groupInvItem
  dsimp only
  split
  · rfl
  · split
    · rfl
    · cases hfe : foldE (groupItem cfg (islook s.srcInvNames x.1)
          (slook s.ids.invs (islook s.srcInvNames x.1))) s x.2 with
      | error e =>
        have := wfjtsPresE_foldE
          (groupItem cfg (islook s.srcInvNames x.1)
            (slook s.ids.invs (islook s.srcInvNames x.1)))
          (groupItem_wfjts cfg _ _) x.2 s
        rw [hfe] at this
        exact this
      | ok t =>
        have ht : t.ids.wfjts = s.ids.wfjts := by
          have := wfjtsPresE_foldE
            (groupItem cfg (islook s.srcInvNames x.1)
              (slook s.ids.invs (islook s.srcInvNames x.1)))
            (groupItem_wfjts cfg _ _) x.2 s
          rw [hfe] at this
          exact this
        exact ht

theorem phaseOrgs_wfjts (cfg : Cfg) : WfjtsPresE (phaseOrgs cfg) :=
  okPhase_wfjts cfg.cancelAt _ (fun s => by
    rw [wfjtsPres_foldl _ (orgItem_wfjts cfg)]; rfl)

theorem phaseCredTypes_wfjts (cfg : Cfg) : WfjtsPresE (phaseCredTypes cfg) :=
  okPhase_wfjts cfg.cancelAt _ (fun s => by
    rw [wfjtsPres_foldl _ (credTypeItem_wfjts cfg)]; rfl)

theorem phaseUsers_wfjts (cfg : Cfg) : WfjtsPresE (phaseUsers cfg) :=
  okPhase_wfjts cfg.cancelAt _ (fun s => by
    rw [wfjtsPres_foldl _ (userItem_wfjts cfg)]; rfl)

theorem phaseTeams_wfjts (cfg : Cfg) : WfjtsPresE (phaseTeams cfg) :=
  okPhase_wfjts cfg.cancelAt _ (fun s => by
    rw [wfjtsPres_foldl _ (teamItem_wfjts cfg)]; rfl)

theorem phaseCreds_wfjts (cfg : Cfg) : WfjtsPresE (phaseCreds cfg) :=
  okPhase_wfjts cfg.cancelAt _ (fun s => by
    rw [wfjtsPres_foldl _ (credItem_wfjts cfg)]; rfl)

theorem phaseProjects_wfjts (cfg : Cfg) : WfjtsPresE (phaseProjects cfg) :=
  okPhase_wfjts cfg.cancelAt _ (fun s => by
    rw [wfjtsPres_foldl _ (projItem_wfjts cfg)]; rfl)

theorem phaseWait_wfjts (cfg : Cfg) : WfjtsPresE (phaseWait cfg) := by
  intro s
  unfold phaseWait
  split
  · rw [wfjtsPresE_foldE _ (waitProjItem_wfjts cfg)]
    rfl
  · rfl

theorem phaseInvs_wfjts (cfg : Cfg) : WfjtsPresE (phaseInvs cfg) :=
  okPhase_wfjts cfg.cancelAt _ (fun s => by
    rw [wfjtsPres_foldl _ (invItem_wfjts cfg)]; rfl)

theorem phaseHosts_wfjts (cfg : Cfg) : WfjtsPresE (phaseHosts cfg) := by
  intro s
  unfold phaseHosts
  cases hc : checkCancel cfg.cancelAt s with
  | error e =>
    have := checkCancel_wfjts cfg.cancelAt s
    rw [hc] at this
    exact this
  | ok t =>
    have ht : t.ids.wfjts = s.ids.wfjts := by
      have := checkCancel_wfjts cfg.cancelAt s
      rw [hc] at this
      exact this
    show (resSt (foldE (hostInvItem cfg) _ cfg.data.hosts)).ids.wfjts = s.ids.wfjts
    rw [wfjtsPresE_foldE _ (hostInvItem_wfjts cfg)]
    exact ht

theorem phaseGroups_wfjts (cfg : Cfg) : WfjtsPresE (phaseGroups cfg) := by
  intro s
  unfold phaseGroups
  cases hc : checkCancel cfg.cancelAt s with
  | error e =>
    have := checkCancel_wfjts cfg.cancelAt s
    rw [hc] at this
    exact this
  | ok t =>
    have ht : t.ids.wfjts = s.ids.wfjts := by
      have := checkCancel_wfjts cfg.cancelAt s
      rw [hc] at this
      exact this
    show (resSt (foldE (groupInvItem cfg) _ cfg.data.groups)).ids.wfjts = s.ids.wfjts
    rw [wfjtsPresE_foldE _ (groupInvItem_wfjts cfg)]
    exact ht

theorem phaseJTs_wfjts (cfg : Cfg) : WfjtsPresE (phaseJTs cfg) :=
  okPhase_wfjts cfg.cancelAt _ (fun s => by
    rw [wfjtsPres_foldl _ (jtItem_wfjts cfg)]; rfl)

/-- `a` terminated with an empty `wfjts` map. -/
def ValWfjtsNil (a : Except St St) : Prop := (resSt a).ids.wfjts = []

theorem valWfjtsNil_bind {a : Except St St} {f : St → Except St St}
    (ha : ValWfjtsNil a) (hf : WfjtsPresE f) : ValWfjtsNil (a >>= f) := by
  cases a with
  | error e => exact ha
  | ok t =>
    show (resSt (f t)).ids.wfjts = []
    rw [hf t]
    exact ha

theorem importUpToJTs_wfjts (cfg : Cfg) : ValWfjtsNil (importUpToJTs cfg) := by
  unfold importUpToJTs
  have base : ValWfjtsNil (phaseOrgs cfg (phasePreload cfg initSt)) := by
    show (resSt (phaseOrgs cfg (phasePreload cfg initSt))).ids.wfjts = []
    rw [phaseOrgs_wfjts cfg (phasePreload cfg initSt)]
    rfl
  exact valWfjtsNil_bind (valWfjtsNil_bind (valWfjtsNil_bind (valWfjtsNil_bind
    (valWfjtsNil_bind (valWfjtsNil_bind (valWfjtsNil_bind (valWfjtsNil_bind
      (valWfjtsNil_bind (valWfjtsNil_bind base
        (phaseCredTypes_wfjts cfg)) (phaseUsers_wfjts cfg)) (phaseTeams_wfjts cfg))
        (phaseCreds_wfjts cfg)) (phaseProjects_wfjts cfg)) (phaseWait_wfjts cfg))
        (phaseInvs_wfjts cfg)) (phaseHosts_wfjts cfg)) (phaseGroups_wfjts cfg))
        (phaseJTs_wfjts cfg)

/-- C10: when the importer reaches the schedules phase, the workflow map
`ids.wfjts` is still empty (the workflow phase runs later), so a schedule
whose parent name is not in `ids.jts` — in particular one whose parent is
a workflow job template being created in this run — is logged as
`  SKIP: <name> (parent "<parent>" not found)` and no POST is issued for
it (the item's only effect is that log line). -/
theorem schedules_before_workflows (cfg : Cfg) (s : St)
    (h : importUpToJTs cfg = .ok s) :
    s.ids.wfjts = [] ∧
    (∀ (s' : St) (sched : Resource), s'.ids.wfjts = [] →
      isExcluded cfg.exclude "schedules" (resourceName sched) = false →
      slook s'.ids.jts (extractUnifiedJTName sched) = 0 →
      schedItem cfg s' sched =
        emit s' (.elog ("  SKIP: " ++ resourceName sched ++ " (parent \"" ++
          extractUnifiedJTName sched ++ "\" not found)"))) := by
  constructor
  · have := importUpToJTs_wfjts cfg
    unfold ValWfjtsNil at this
    rw [h] at this
    exact this
  · intro s' sched hwf hex hjts
    unfold schedItem
    rw [if_neg (by rw [hex]; exact Bool.false_ne_true)]
    dsimp only
    rw [hjts, hwf]
    rfl

/-- A schedule whose parent is the workflow job template below. -/
def schedRes : Resource :=
  [("id", Value.vnum 7), ("name", Value.vstr "Nightly"),
   ("rrule", Value.vstr "DTSTART:20240101T000000Z RRULE:FREQ=DAILY"),
   ("summary_fields", Value.vobj
     [("unified_job_template", Value.vobj [("name", Value.vstr "Pipeline")])])]

/-- A workflow job template that this run would create — but only after the
schedules phase has already run. -/
def wfjtRes : Resource :=
  [("id", Value.vnum 5), ("name", Value.vstr "Pipeline")]

def schedData : ExportedData :=
  { organizations := [], teams := [], users := [], credentialTypes := [],
    credentials := [], projects := [], inventories := [], hosts := [],
    groups := [], groupHosts := [], jobTemplates := [], surveys := [],
    workflowJTs := [wfjtRes],
    workflowNodes := [], schedules := [schedRes], orgUsers := [],
    teamUsers := [] }

def schedCfg : Cfg :=
  { dst := nullDest
    dstType := "awx"
    data := schedData
    preview := emptyPreview
    exclude := []
    cancelAt := none }

/-- Witness for C10: in the run above, the state reaching the schedules
phase has an empty workflow map, and the schedule "Nightly" (parent
"Pipeline", a workflow job template of this run) is skipped with the
parent-not-found log line. -/
theorem schedules_before_workflows_witness :
    (resSt (importUpToJTs schedCfg)).ids.wfjts = [] ∧
    schedItem schedCfg (resSt (importUpToJTs schedCfg)) schedRes =
      emit (resSt (importUpToJTs schedCfg))
        (.elog ("  SKIP: " ++ resourceName schedRes ++ " (parent \"" ++
          extractUnifiedJTName schedRes ++ "\" not found)")) := by
  have h := schedules_before_workflows schedCfg (resSt (importUpToJTs schedCfg)) rfl
  exact ⟨h.1, h.2 _ schedRes rfl rfl rfl⟩

/-! ### C5: exclusion is implemented by the importer but dropped by Run -/

def acmeOrg : Resource :=
  [("id", Value.vnum 1), ("name", Value.vstr "Acme"),
   ("description", Value.vstr "")]

/-- A destination that accepts every create. -/
def acmeDest : Dest :=
  { create := fun _ _ => .ok 5
    findByName := fun _ _ => none
    allCredTypes := []
    projStatus := fun _ _ => none }

def acmeData : ExportedData :=
  { organizations := [acmeOrg], teams := [], users := [], credentialTypes := [],
    credentials := [], projects := [], inventories := [], hosts := [],
    groups := [], groupHosts := [], jobTemplates := [], surveys := [],
    workflowJTs := [], workflowNodes := [], schedules := [], orgUsers := [],
    teamUsers := [] }

/-- The same run with the user excluding organization "Acme". -/
def exCfg : Cfg :=
  { dst := acmeDest
    dstType := "awx"
    data := acmeData
    preview := emptyPreview
    exclude := [("organizations", ["Acme"])]
    cancelAt := none }

def isPost : Event → Bool
  | .epost _ _ => true
  | _ => false

/-- C5: the importer honours the exclusion map — with
`exclude = {organizations: {Acme}}` it logs
`  EXCLUDED: Acme (user exclusion)` and issues no POST at all — but the
engine's run entry point `Run` (migration.go) accepts no exclusion
parameter: the identical migration through `Run` POSTs the organization.
The claim's second half (the exclusion parameter is accepted by the
engine's run entry point and passed through) does not hold of the code:
`Run` calls the import with an empty exclusion map. -/
theorem exclusion_dropped_by_Run :
    (importRun exCfg).1.get? 1 =
      some (.elog "  EXCLUDED: Acme (user exclusion)") ∧
    (importRun exCfg).1.countP isPost = 0 ∧
    (Run acmeDest "awx" acmeData emptyPreview).1.get? 1 =
      some (.epost .organizations (Value.vobj
        [("name", Value.vstr "Acme"), ("description", Value.vstr "")])) ∧
    (Run acmeDest "awx" acmeData emptyPreview).1.countP isPost = 1 :=
  ⟨rfl, rfl, rfl, rfl⟩
